import Mathlib

/-!
Verification of `src/smartpointers.h`: a shallow embedding of the
`UniquePtr`, `ReferenceCounter`, `SharedPtr` and `WeakPtr` classes, and proofs
about the reference-counting protocol.

Modelling conventions.

An execution state (`World`) holds one list entry per `ReferenceCounter`
allocated with `new` (index = identity of the counter on the heap), one entry
per `SharedPtr` object that has been constructed (index = address of the
handle), and likewise for `WeakPtr`.  Handles are never removed from the
lists: a destroyed handle is marked `dead`, and any further operation on it is
undefined behavior.

The counter fields `count` and `weak` are `size_t` in the source; they are
modelled as exact naturals.  Wraparound of `++`/`--` on `size_t` would need
2^64 simultaneously live handles (impossible in a 64 bit address space: each
handle occupies 16 bytes), and the invariants proved below show that every
`--` in the protocol runs on a strictly positive counter, where `Nat`
subtraction agrees with `size_t` subtraction.

Undefined behavior is modelled by `Option`: a step returns `none` exactly when
the source would dereference a null pointer, read or write a freed
`ReferenceCounter`, `delete` an already deleted object, or act on an already
destroyed handle.  Ghost fields (`objAlive`, `objFrees`, `blkAlive`,
`blkFrees`) record how many times `delete` ran on the owned object and on the
counter; they have no counterpart in the data of the source but only record
what the source side effects do.
-/

/-- The `ReferenceCounter` class (smartpointers.h lines 80-111) together with
ghost allocation state of the counter itself and of the object whose block
this is.  `count` and `weak` are the two `size_t` fields; `hasObj` records
whether the raw pointer adopted when this block was created was non-null. -/
structure ReferenceCounter where
  count : Nat
  weak : Nat
  hasObj : Bool
  objAlive : Bool
  objFrees : Nat
  blkAlive : Bool
  blkFrees : Nat
deriving DecidableEq, Inhabited

/-- `ReferenceCounter::add` (line 88): `++count`. -/
def ReferenceCounter.add (r : ReferenceCounter) : ReferenceCounter :=
  { r with count := r.count + 1 }

/-- `ReferenceCounter::remove` (line 92): `--count`, returning the new value.
The model keeps the updated record; callers test the new `count` field, which
is exactly the value `remove` returns in the source. -/
def ReferenceCounter.remove (r : ReferenceCounter) : ReferenceCounter :=
  { r with count := r.count - 1 }

/-- `ReferenceCounter::addWeak` (line 100): `++weak`. -/
def ReferenceCounter.addWeak (r : ReferenceCounter) : ReferenceCounter :=
  { r with weak := r.weak + 1 }

/-- `ReferenceCounter::removeWeak` (line 104): `--weak`, returning the new
value, kept in the `weak` field of the updated record. -/
def ReferenceCounter.removeWeak (r : ReferenceCounter) : ReferenceCounter :=
  { r with weak := r.weak - 1 }

/-- State of one `SharedPtr` object.  The source fields are `T *object` and
`ReferenceCounter *reference`; the reachable field combinations are
`(nullptr, nullptr)` (modelled by `empty`) and `(p, B)` with `B` non-null
(modelled by `hold hasObj b`, where `hasObj` is whether `object` is non-null
and `b` identifies the counter).  `dead` marks a handle whose destructor has
run. -/
inductive SharedH where
  | dead
  | empty
  | hold (hasObj : Bool) (b : Nat)
deriving DecidableEq, Inhabited

/-- State of one `WeakPtr` object, fields `T *pointer` and
`ReferenceCounter *reference` (lines 243-244), same conventions as
`SharedH`. -/
inductive WeakH where
  | dead
  | empty
  | hold (hasPtr : Bool) (b : Nat)
deriving DecidableEq, Inhabited

/-- A complete execution state: every `ReferenceCounter` ever allocated,
every `SharedPtr` ever constructed, every `WeakPtr` ever constructed. -/
structure World where
  blks : List ReferenceCounter
  sh : List SharedH
  wk : List WeakH
deriving DecidableEq, Inhabited

/-- The state before any handle has been constructed. -/
def World.empty : World := ⟨[], [], []⟩

/-- `SharedPtr::deleter` (lines 124-130):
`if (object && !reference->remove()) { delete object;
if (!reference->getWeak()) delete reference; }`.
Returns the updated block list, or `none` on undefined behavior (running on a
destroyed handle, touching a freed counter, deleting an already deleted
object). -/
def sharedDeleter (blks : List ReferenceCounter) : SharedH → Option (List ReferenceCounter)
  | SharedH.dead => none
  | SharedH.empty => some blks
  | SharedH.hold hasObj b =>
    if hasObj = false then some blks
    else
      match blks[b]? with
      | none => none
      | some B =>
        if B.blkAlive = false then none
        else
          let B1 := B.remove
          if B1.count = 0 then
            if B1.objAlive = false then none
            else
              let B2 := { B1 with objAlive := false, objFrees := B1.objFrees + 1 }
              if B2.weak = 0 then
                some (blks.set b { B2 with blkAlive := false, blkFrees := B2.blkFrees + 1 })
              else
                some (blks.set b B2)
          else
            some (blks.set b B1)

/-- `WeakPtr::deleter` (lines 246-249):
`if (reference && !reference->get() && !reference->removeWeak())
delete reference;`.
Note the short circuit: `removeWeak` runs only when the strong count is
already zero. -/
def weakDeleter (blks : List ReferenceCounter) : WeakH → Option (List ReferenceCounter)
  | WeakH.dead => none
  | WeakH.empty => some blks
  | WeakH.hold _ b =>
    match blks[b]? with
    | none => none
    | some B =>
      if B.blkAlive = false then none
      else
        if B.count = 0 then
          let B1 := B.removeWeak
          if B1.weak = 0 then
            some (blks.set b { B1 with blkAlive := false, blkFrees := B1.blkFrees + 1 })
          else
            some (blks.set b B1)
        else
          some blks

/-- A fresh block as allocated by `SharedPtr(T*)` and by `reset(U*)`:
`new ReferenceCounter{}` (count 0, weak 0) followed by `reference->add()`.
`hasObj` is whether the adopted raw pointer is non-null. -/
def freshBlock (hasObj : Bool) : ReferenceCounter :=
  ⟨1, 0, hasObj, hasObj, 0, true, 0⟩

/-- The operations of the two class surfaces.  Handle arguments are indices
into `World.sh` and `World.wk`; a constructor op appends the new handle at the
end of the corresponding list. -/
inductive Op where
  | sNewRaw (hasObj : Bool)
  | sCopyCtor (src : Nat)
  | sMoveCtor (src : Nat)
  | sFromWeakCtor (src : Nat)
  | sDtor (h : Nat)
  | sCopyAssign (dst src : Nat)
  | sMoveAssign (dst src : Nat)
  | sReset (h : Nat)
  | sResetPtr (h : Nat)
  | sSwap (a b : Nat)
  | wFromSharedCtor (src : Nat)
  | wCopyCtor (src : Nat)
  | wMoveCtor (src : Nat)
  | wDtor (h : Nat)
  | wCopyAssign (dst src : Nat)
  | wFromSharedAssign (dst src : Nat)
  | wMoveAssign (dst src : Nat)
  | wReset (h : Nat)
  | wSwap (a b : Nat)
  | wLock (src : Nat)
deriving DecidableEq

/-- One operation of the source API, as a transition on `World`.  `none`
models undefined behavior.  Each case is a direct transcription of the
corresponding member of `SharedPtr` / `WeakPtr` in smartpointers.h. -/
def step (w : World) : Op → Option World
  | Op.sNewRaw hasObj =>
    -- SharedPtr(T *pointer) (lines 135-137): object = pointer,
    -- reference = new ReferenceCounter{}; reference->add().
    some ⟨w.blks ++ [freshBlock hasObj], w.sh ++ [SharedH.hold hasObj w.blks.length], w.wk⟩
  | Op.sCopyCtor src =>
    -- SharedPtr(const SharedPtr&) (lines 139-142): copies both fields,
    -- then `if (reference) reference->add()`.
    match w.sh[src]? with
    | some SharedH.empty => some ⟨w.blks, w.sh ++ [SharedH.empty], w.wk⟩
    | some (SharedH.hold o b) =>
      match w.blks[b]? with
      | none => none
      | some B =>
        if B.blkAlive = false then none
        else some ⟨w.blks.set b B.add, w.sh ++ [SharedH.hold o b], w.wk⟩
    | _ => none
  | Op.sMoveCtor src =>
    -- SharedPtr(SharedPtr&&) (lines 149-155): steal both fields, null the
    -- source fields.
    match w.sh[src]? with
    | some SharedH.dead => none
    | some s => some ⟨w.blks, (w.sh.set src SharedH.empty) ++ [s], w.wk⟩
    | none => none
  | Op.sFromWeakCtor src =>
    -- SharedPtr(const WeakPtr&) (lines 144-147): object = right.pointer,
    -- reference = right.reference; `if (reference) reference->add()`.
    match w.wk[src]? with
    | some WeakH.empty => some ⟨w.blks, w.sh ++ [SharedH.empty], w.wk⟩
    | some (WeakH.hold p b) =>
      match w.blks[b]? with
      | none => none
      | some B =>
        if B.blkAlive = false then none
        else some ⟨w.blks.set b B.add, w.sh ++ [SharedH.hold p b], w.wk⟩
    | _ => none
  | Op.sDtor h =>
    -- ~SharedPtr (lines 157-159): deleter().
    match w.sh[h]? with
    | none => none
    | some s =>
      match sharedDeleter w.blks s with
      | none => none
      | some blks1 => some ⟨blks1, w.sh.set h SharedH.dead, w.wk⟩
  | Op.sCopyAssign dst src =>
    -- operator=(const SharedPtr&) (lines 161-172): self check, deleter(),
    -- adopt both fields, then `reference->add()` with NO null guard.
    match w.sh[dst]? with
    | none => none
    | some SharedH.dead => none
    | some d =>
      match w.sh[src]? with
      | none => none
      | some SharedH.dead => none
      | some s =>
        if dst = src then some w
        else
          match sharedDeleter w.blks d with
          | none => none
          | some blks1 =>
            match s with
            | SharedH.empty => none  -- reference->add() on a null reference
            | SharedH.hold o b =>
              match blks1[b]? with
              | none => none
              | some B =>
                if B.blkAlive = false then none
                else some ⟨blks1.set b B.add, w.sh.set dst (SharedH.hold o b), w.wk⟩
            | SharedH.dead => none
  | Op.sMoveAssign dst src =>
    -- operator=(SharedPtr&&) (lines 174-187): self check, deleter(), steal
    -- both fields, null the source fields.
    match w.sh[dst]? with
    | none => none
    | some SharedH.dead => none
    | some d =>
      match w.sh[src]? with
      | none => none
      | some SharedH.dead => none
      | some s =>
        if dst = src then some w
        else
          match sharedDeleter w.blks d with
          | none => none
          | some blks1 =>
            some ⟨blks1, (w.sh.set dst s).set src SharedH.empty, w.wk⟩
  | Op.sReset h =>
    -- reset() (lines 221-226) and reset(U* = nullptr) (lines 205-219, else
    -- branch): deleter(), then both fields null.
    match w.sh[h]? with
    | none => none
    | some s =>
      match sharedDeleter w.blks s with
      | none => none
      | some blks1 => some ⟨blks1, w.sh.set h SharedH.empty, w.wk⟩
  | Op.sResetPtr h =>
    -- reset(U *pointer) with non-null pointer (lines 205-219, then branch):
    -- deleter(), adopt pointer, reference = new ReferenceCounter{}; add().
    match w.sh[h]? with
    | none => none
    | some s =>
      match sharedDeleter w.blks s with
      | none => none
      | some blks1 =>
        some ⟨blks1 ++ [freshBlock true], w.sh.set h (SharedH.hold true blks1.length), w.wk⟩
  | Op.sSwap a b =>
    -- swap (lines 228-236): exchange object and reference fields.
    match w.sh[a]? with
    | none => none
    | some SharedH.dead => none
    | some sa =>
      match w.sh[b]? with
      | none => none
      | some SharedH.dead => none
      | some sb => some ⟨w.blks, (w.sh.set a sb).set b sa, w.wk⟩
  | Op.wFromSharedCtor src =>
    -- WeakPtr(const SharedPtr&) (lines 254-256): copies both fields, then
    -- `reference->addWeak()` with NO null guard.
    match w.sh[src]? with
    | some SharedH.empty => none  -- addWeak on a null reference
    | some (SharedH.hold o b) =>
      match w.blks[b]? with
      | none => none
      | some B =>
        if B.blkAlive = false then none
        else some ⟨w.blks.set b B.addWeak, w.sh, w.wk ++ [WeakH.hold o b]⟩
    | _ => none
  | Op.wCopyCtor src =>
    -- WeakPtr(const WeakPtr&) (lines 258-260): copies both fields, then
    -- `reference->addWeak()` with NO null guard.
    match w.wk[src]? with
    | some WeakH.empty => none  -- addWeak on a null reference
    | some (WeakH.hold p b) =>
      match w.blks[b]? with
      | none => none
      | some B =>
        if B.blkAlive = false then none
        else some ⟨w.blks.set b B.addWeak, w.sh, w.wk ++ [WeakH.hold p b]⟩
    | _ => none
  | Op.wMoveCtor src =>
    -- WeakPtr(WeakPtr&&) (lines 262-268): steal both fields, null source.
    match w.wk[src]? with
    | some WeakH.dead => none
    | some s => some ⟨w.blks, w.sh, (w.wk.set src WeakH.empty) ++ [s]⟩
    | none => none
  | Op.wDtor h =>
    -- ~WeakPtr (lines 270-272): deleter().
    match w.wk[h]? with
    | none => none
    | some s =>
      match weakDeleter w.blks s with
      | none => none
      | some blks1 => some ⟨blks1, w.sh, w.wk.set h WeakH.dead⟩
  | Op.wCopyAssign dst src =>
    -- operator=(const WeakPtr&) (lines 274-285): self check, deleter(),
    -- adopt both fields, `reference->addWeak()` with NO null guard.
    match w.wk[dst]? with
    | none => none
    | some WeakH.dead => none
    | some d =>
      match w.wk[src]? with
      | none => none
      | some WeakH.dead => none
      | some s =>
        if dst = src then some w
        else
          match weakDeleter w.blks d with
          | none => none
          | some blks1 =>
            match s with
            | WeakH.empty => none  -- addWeak on a null reference
            | WeakH.hold p b =>
              match blks1[b]? with
              | none => none
              | some B =>
                if B.blkAlive = false then none
                else some ⟨blks1.set b B.addWeak, w.sh, w.wk.set dst (WeakH.hold p b)⟩
            | WeakH.dead => none
  | Op.wFromSharedAssign dst src =>
    -- operator=(const SharedPtr&) (lines 287-295): deleter(), adopt the
    -- fields of the shared source, `reference->addWeak()` with NO null guard
    -- and no self check (the source is a different class).
    match w.wk[dst]? with
    | none => none
    | some WeakH.dead => none
    | some d =>
      match w.sh[src]? with
      | none => none
      | some SharedH.dead => none
      | some s =>
        match weakDeleter w.blks d with
        | none => none
        | some blks1 =>
          match s with
          | SharedH.empty => none  -- addWeak on a null reference
          | SharedH.hold o b =>
            match blks1[b]? with
            | none => none
            | some B =>
              if B.blkAlive = false then none
              else some ⟨blks1.set b B.addWeak, w.sh, w.wk.set dst (WeakH.hold o b)⟩
          | SharedH.dead => none
  | Op.wMoveAssign dst src =>
    -- operator=(WeakPtr&&) (lines 297-310): self check, deleter(), steal
    -- both fields, null the source fields.
    match w.wk[dst]? with
    | none => none
    | some WeakH.dead => none
    | some d =>
      match w.wk[src]? with
      | none => none
      | some WeakH.dead => none
      | some s =>
        if dst = src then some w
        else
          match weakDeleter w.blks d with
          | none => none
          | some blks1 =>
            some ⟨blks1, w.sh, (w.wk.set dst s).set src WeakH.empty⟩
  | Op.wReset h =>
    -- reset (lines 324-329): deleter(), both fields null.
    match w.wk[h]? with
    | none => none
    | some s =>
      match weakDeleter w.blks s with
      | none => none
      | some blks1 => some ⟨blks1, w.sh, w.wk.set h WeakH.empty⟩
  | Op.wSwap a b =>
    -- swap (lines 331-339): exchange pointer and reference fields.
    match w.wk[a]? with
    | none => none
    | some WeakH.dead => none
    | some sa =>
      match w.wk[b]? with
      | none => none
      | some WeakH.dead => none
      | some sb => some ⟨w.blks, w.sh, (w.wk.set a sb).set b sa⟩
  | Op.wLock src =>
    -- lock (lines 320-322): `expired() ? SharedPtr{} : SharedPtr{*this}`,
    -- where expired() is use_count() == 0 and use_count() reads
    -- reference->get() when reference is non-null.  The returned handle is
    -- appended to the shared handle list.
    match w.wk[src]? with
    | some WeakH.empty => some ⟨w.blks, w.sh ++ [SharedH.empty], w.wk⟩
    | some (WeakH.hold p b) =>
      match w.blks[b]? with
      | none => none
      | some B =>
        if B.blkAlive = false then none
        else if B.count = 0 then some ⟨w.blks, w.sh ++ [SharedH.empty], w.wk⟩
        else some ⟨w.blks.set b B.add, w.sh ++ [SharedH.hold p b], w.wk⟩
    | _ => none

/-- Run a sequence of operations; the whole run is defined only when every
step is. -/
def run (w : World) : List Op → Option World
  | [] => some w
  | o :: ops =>
    match step w o with
    | none => none
    | some w1 => run w1 ops

/-- The state right after `SharedPtr a{new T}`: one block with strong count 1,
one live shared handle, no weak handles. -/
def init1 : World := ⟨[freshBlock true], [SharedH.hold true 0], []⟩

/-- `SharedPtr::use_count` (lines 201-203):
`(reference) ? reference->get() : 0`.  `none` on a destroyed handle or a
freed counter. -/
def useCountS (w : World) (i : Nat) : Option Nat :=
  match w.sh[i]? with
  | some SharedH.empty => some 0
  | some (SharedH.hold _ b) =>
    match w.blks[b]? with
    | some B => if B.blkAlive then some B.count else none
    | none => none
  | _ => none

/-- `WeakPtr::use_count` (lines 316-318): same shape as the shared one. -/
def useCountW (w : World) (i : Nat) : Option Nat :=
  match w.wk[i]? with
  | some WeakH.empty => some 0
  | some (WeakH.hold _ b) =>
    match w.blks[b]? with
    | some B => if B.blkAlive then some B.count else none
    | none => none
  | _ => none

/-- `SharedPtr::get` (lines 197-199), reduced to the nullness of the returned
pointer: `some true` = non-null, `some false` = null, `none` = destroyed
handle. -/
def getS (w : World) (i : Nat) : Option Bool :=
  match w.sh[i]? with
  | some SharedH.empty => some false
  | some (SharedH.hold o _) => some o
  | _ => none

/-- Whether a shared handle references block `b`. -/
def SharedH.refs (b : Nat) : SharedH → Bool
  | SharedH.hold _ b2 => b2 == b
  | _ => false

/-- Whether a weak handle references block `b`. -/
def WeakH.refs (b : Nat) : WeakH → Bool
  | WeakH.hold _ b2 => b2 == b
  | _ => false

/-- Number of entries of a shared-handle list that reference block `b`. -/
def cntS (sh : List SharedH) (b : Nat) : Nat :=
  sh.countP (SharedH.refs b)

/-- Number of entries of a weak-handle list that reference block `b`. -/
def cntW (wk : List WeakH) (b : Nat) : Nat :=
  wk.countP (WeakH.refs b)

/-- Number of live `SharedPtr` handles whose `reference` field points at
block `b`. -/
def sharers (w : World) (b : Nat) : Nat :=
  cntS w.sh b

/-- Number of live `WeakPtr` handles whose `reference` field points at
block `b`. -/
def weakHolders (w : World) (b : Nat) : Nat :=
  cntW w.wk b

/-- For every block created from a non-null pointer, the owned object is
alive exactly while the strong count is positive. -/
def SAlive (blks : List ReferenceCounter) : Prop :=
  ∀ (b : Nat) (B : ReferenceCounter), blks[b]? = some B → B.hasObj = true →
    (B.objAlive = true ↔ 1 ≤ B.count)

/-- Net effect of `SharedPtr::deleter` on the counter of a handle whose
`object` is non-null (used to state the characterization lemma for
`sharedDeleter`). -/
def sharedDeleterEffect (B : ReferenceCounter) : ReferenceCounter :=
  if B.count - 1 = 0 then
    if B.weak = 0 then
      ⟨B.count - 1, B.weak, B.hasObj, false, B.objFrees + 1, false, B.blkFrees + 1⟩
    else
      ⟨B.count - 1, B.weak, B.hasObj, false, B.objFrees + 1, B.blkAlive, B.blkFrees⟩
  else
    ⟨B.count - 1, B.weak, B.hasObj, B.objAlive, B.objFrees, B.blkAlive, B.blkFrees⟩

/-- Net effect of `WeakPtr::deleter` on the counter when the strong count is
zero (the only case in which the source touches the counter). -/
def weakDeleterEffect (B : ReferenceCounter) : ReferenceCounter :=
  if B.weak - 1 = 0 then
    ⟨B.count, B.weak - 1, B.hasObj, B.objAlive, B.objFrees, false, B.blkFrees + 1⟩
  else
    ⟨B.count, B.weak - 1, B.hasObj, B.objAlive, B.objFrees, B.blkAlive, B.blkFrees⟩

/-- The operations in C1: everything of the `SharedPtr` surface over a fixed
already-created object (copy and move construction and assignment,
destruction, reset to empty, swap). -/
def SharedOp : Op → Bool
  | Op.sCopyCtor _ => true
  | Op.sMoveCtor _ => true
  | Op.sDtor _ => true
  | Op.sCopyAssign _ _ => true
  | Op.sMoveAssign _ _ => true
  | Op.sReset _ => true
  | Op.sSwap _ _ => true
  | _ => false

/-- All operations except the direct `SharedPtr(const WeakPtr&)` constructor,
which has no expiry check and can resurrect a dead object (the spec flags
this path as residual; `lock` is the guarded promotion path). -/
def SafeOp : Op → Bool
  | Op.sFromWeakCtor _ => false
  | _ => true

/-- States reachable by running the API from the empty world. -/
def Reach (w : World) : Prop := ∃ ops, run World.empty ops = some w

/-!  The `UniquePtr` model.  A `UWorld` holds the objects handed to
`UniquePtr` constructors (ghost allocation state) and the states of the
constructed handles. -/

/-- Ghost allocation state of one raw object owned through `UniquePtr`. -/
structure UObj where
  alive : Bool
  frees : Nat
deriving DecidableEq, Inhabited

/-- State of one `UniquePtr`: its single field `T *object` (line 10), or
`dead` after destruction. -/
inductive UniqueH where
  | dead
  | ptr (o : Option Nat)
deriving DecidableEq, Inhabited

/-- Execution state for the `UniquePtr` model. -/
structure UWorld where
  objs : List UObj
  hs : List UniqueH
deriving DecidableEq, Inhabited

/-- `UniquePtr(UniquePtr&&)` (lines 23-26): `object = right.object;
right.object = nullptr;`.  The new handle is appended. -/
def uMoveCtor (w : UWorld) (src : Nat) : Option UWorld :=
  match w.hs[src]? with
  | some (UniqueH.ptr v) => some ⟨w.objs, (w.hs.set src (UniqueH.ptr none)) ++ [UniqueH.ptr v]⟩
  | _ => none

/-- `delete p` on an optional raw pointer: no-op on null, frees a live
object, undefined on an already freed object. -/
def deleteObj (objs : List UObj) : Option Nat → Option (List UObj)
  | none => some objs
  | some o =>
    match objs[o]? with
    | none => none
    | some ob =>
      if ob.alive = false then none
      else some (objs.set o ⟨false, ob.frees + 1⟩)

/-- `UniquePtr::operator=(UniquePtr&&)` (lines 34-42), transcribed
statement by statement, with `dst = src` allowed exactly as in the source
(there is no self-assignment check): `if (object) delete object;
object = right.object; right.object = nullptr;`.  When `dst = src`, the
read of `right.object` still sees the original pointer because `delete`
does not change the field. -/
def uMoveAssign (w : UWorld) (dst src : Nat) : Option UWorld :=
  match w.hs[dst]?, w.hs[src]? with
  | some (UniqueH.ptr dv), some (UniqueH.ptr sv) =>
    match deleteObj w.objs dv with
    | none => none
    | some objs1 => some ⟨objs1, (w.hs.set dst (UniqueH.ptr sv)).set src (UniqueH.ptr none)⟩
  | _, _ => none

/-- `~UniquePtr` (lines 44-46): `delete object`. -/
def uDtor (w : UWorld) (h : Nat) : Option UWorld :=
  match w.hs[h]? with
  | some (UniqueH.ptr v) =>
    match deleteObj w.objs v with
    | none => none
    | some objs1 => some ⟨objs1, w.hs.set h UniqueH.dead⟩
  | _ => none

/-- `UniquePtr::get` (lines 56-58): the stored raw pointer. -/
def uGet (w : UWorld) (h : Nat) : Option (Option Nat) :=
  match w.hs[h]? with
  | some (UniqueH.ptr v) => some v
  | _ => none

/-- `WeakPtr::expired` (lines 312-314): `!use_count()`. -/
def expiredW (w : World) (i : Nat) : Option Bool :=
  (useCountW w i).map (fun n => n == 0)

/-- States reachable without the unguarded `SharedPtr(const WeakPtr&)`
constructor (every public path except the residual promotion constructor;
`lock` is still allowed). -/
def ReachS (w : World) : Prop :=
  ∃ ops, (∀ o ∈ ops, SafeOp o = true) ∧ run World.empty ops = some w

/-- Blocks are never removed and their `hasObj` tag is fixed at creation:
this relation says every block of the first list is still present, with the
same `hasObj`, in the second. -/
def BlkPersist (blks blks2 : List ReferenceCounter) : Prop :=
  ∀ (b : Nat) (B : ReferenceCounter), blks[b]? = some B →
    ∃ B2, blks2[b]? = some B2 ∧ B2.hasObj = B.hasObj

/-- The protocol invariant, maintained by every defined operation.
`shAgree`/`wkAgree`: a live handle that references block `b` agrees with the
block on the nullness of the object pointer, and its block is not freed.
`strongEq`: for a block created from a non-null pointer, the strong count is
exactly the number of live shared handles on it.  `noObjInv`: a block created
from a null pointer keeps a positive strong count and is never freed.
`weakGe`: the weak count is at least the number of live weak handles
(strictly greater once releases were skipped by the short circuit in
`WeakPtr::deleter`).  `objCnt`/`blkCnt`: each `delete` ran at most once, and
exactly when the corresponding ghost liveness flag is down. -/
structure WInv (w : World) : Prop where
  shAgree : ∀ (i : Nat) (o : Bool) (b : Nat), w.sh[i]? = some (SharedH.hold o b) →
    ∃ B, w.blks[b]? = some B ∧ o = B.hasObj ∧ B.blkAlive = true
  wkAgree : ∀ (i : Nat) (p : Bool) (b : Nat), w.wk[i]? = some (WeakH.hold p b) →
    ∃ B, w.blks[b]? = some B ∧ p = B.hasObj ∧ B.blkAlive = true
  strongEq : ∀ (b : Nat) (B : ReferenceCounter), w.blks[b]? = some B → B.hasObj = true →
    B.count = sharers w b
  noObjInv : ∀ (b : Nat) (B : ReferenceCounter), w.blks[b]? = some B → B.hasObj = false →
    1 ≤ B.count ∧ B.blkAlive = true ∧ B.blkFrees = 0 ∧ B.objAlive = false ∧ B.objFrees = 0
  weakGe : ∀ (b : Nat) (B : ReferenceCounter), w.blks[b]? = some B → weakHolders w b ≤ B.weak
  objCnt : ∀ (b : Nat) (B : ReferenceCounter), w.blks[b]? = some B → B.hasObj = true →
    B.objFrees = if B.objAlive then 0 else 1
  blkCnt : ∀ (b : Nat) (B : ReferenceCounter), w.blks[b]? = some B →
    B.blkFrees = if B.blkAlive then 0 else 1

/-- The strengthened invariant: without the unguarded weak-to-shared
constructor, the owned object of a block created from a non-null pointer is
alive exactly while the strong count is positive. -/
structure WInvS (w : World) extends WInv w : Prop where
  strongAlive : SAlive w.blks

example : run init1 [Op.sCopyCtor 0, Op.sDtor 0, Op.sDtor 1] =
    some ⟨[⟨0, 0, true, false, 1, false, 1⟩], [SharedH.dead, SharedH.dead], []⟩ := by rfl

example : run init1 [Op.wFromSharedCtor 0, Op.wDtor 0, Op.sDtor 0] =
    some ⟨[⟨0, 1, true, false, 1, true, 0⟩], [SharedH.dead], [WeakH.dead]⟩ := by rfl

example : run init1 [Op.wFromSharedCtor 0, Op.sDtor 0, Op.wDtor 0] =
    some ⟨[⟨0, 0, true, false, 1, false, 1⟩], [SharedH.dead], [WeakH.dead]⟩ := by rfl

/-! ## List toolkit -/

theorem getElem?_set_cases {α : Type} {l : List α} {i j : Nat} {a x : α}
    (h : (l.set i a)[j]? = some x) :
    (i = j ∧ x = a ∧ i < l.length) ∨ (i ≠ j ∧ l[j]? = some x) := by
  by_cases hij : i = j
  · subst hij
    rcases List.getElem?_eq_some_iff.1 h with ⟨hlen, hval⟩
    rw [List.length_set] at hlen
    left
    refine ⟨rfl, ?_, hlen⟩
    rw [List.getElem?_set_eq_of_lt a hlen] at h
    exact (Option.some.inj h).symm
  · right
    exact ⟨hij, by rwa [List.getElem?_set_ne hij] at h⟩

theorem getElem?_set_same {α : Type} {l : List α} {i : Nat} {x : α}
    (h : l[i]? = some x) (a : α) : (l.set i a)[i]? = some a := by
  rcases List.getElem?_eq_some_iff.1 h with ⟨hlen, _⟩
  exact List.getElem?_set_eq_of_lt a hlen

theorem getElem?_concat_cases {α : Type} {l : List α} {a x : α} {i : Nat}
    (h : (l ++ [a])[i]? = some x) : l[i]? = some x ∨ (i = l.length ∧ x = a) := by
  rcases Nat.lt_trichotomy i l.length with hlt | heq | hgt
  · left
    rwa [List.getElem?_append_left hlt] at h
  · right
    subst heq
    rw [List.getElem?_concat_length] at h
    exact ⟨rfl, (Option.some.inj h).symm⟩
  · exfalso
    have hlen : (l ++ [a]).length ≤ i := by
      simp only [List.length_append, List.length_singleton]
      omega
    rw [List.getElem?_eq_none hlen] at h
    exact Option.noConfusion h

theorem getElem?_concat_of_mem {α : Type} {l : List α} {a x : α} {i : Nat}
    (h : l[i]? = some x) : (l ++ [a])[i]? = some x := by
  rcases List.getElem?_eq_some_iff.1 h with ⟨hlen, _⟩
  rwa [List.getElem?_append_left hlen]

theorem countP_concat {α : Type} (p : α → Bool) (l : List α) (a : α) :
    (l ++ [a]).countP p = l.countP p + (if p a then 1 else 0) := by
  simp [List.countP_append, List.countP_cons]

theorem countP_set_of_getElem? {α : Type} {l : List α} {i : Nat} {x : α} (p : α → Bool)
    (hx : l[i]? = some x) (a : α) :
    (l.set i a).countP p = l.countP p - (if p x then 1 else 0) + (if p a then 1 else 0) := by
  rcases List.getElem?_eq_some_iff.1 hx with ⟨hlen, hval⟩
  subst hval
  exact List.countP_set p l i a hlen

theorem boole_le_countP_of_getElem? {α : Type} {l : List α} {i : Nat} {x : α} (p : α → Bool)
    (hx : l[i]? = some x) : (if p x then 1 else 0) ≤ l.countP p := by
  rcases List.getElem?_eq_some_iff.1 hx with ⟨hlen, hval⟩
  subst hval
  exact List.boole_getElem_le_countP p l i hlen

theorem one_le_countP_of_getElem? {α : Type} {l : List α} {i : Nat} {x : α} {p : α → Bool}
    (hx : l[i]? = some x) (hpx : p x = true) : 1 ≤ l.countP p := by
  have := boole_le_countP_of_getElem? p hx
  rwa [hpx, if_pos rfl] at this

theorem countP_eq_zero_at {α : Type} {l : List α} {i : Nat} {x : α} {p : α → Bool}
    (hc : l.countP p = 0) (hx : l[i]? = some x) : p x = false := by
  cases hpx : p x with
  | false => rfl
  | true =>
    have := one_le_countP_of_getElem? hx hpx
    omega

theorem refs_hold_iff {b b2 : Nat} {o : Bool} :
    SharedH.refs b (SharedH.hold o b2) = true ↔ b2 = b := by
  simp [SharedH.refs]

theorem wrefs_hold_iff {b b2 : Nat} {p : Bool} :
    WeakH.refs b (WeakH.hold p b2) = true ↔ b2 = b := by
  simp [WeakH.refs]

/-! ## Deleter characterizations -/

theorem sharedDeleter_cases {blks : List ReferenceCounter} {s : SharedH}
    {blks1 : List ReferenceCounter} (h : sharedDeleter blks s = some blks1) :
    (blks1 = blks ∧ (s = SharedH.empty ∨ ∃ b, s = SharedH.hold false b)) ∨
    (∃ b B, s = SharedH.hold true b ∧ blks[b]? = some B ∧ B.blkAlive = true ∧
      (B.count - 1 = 0 → B.objAlive = true) ∧ blks1 = blks.set b (sharedDeleterEffect B)) := by
  cases s with
  | dead => exact absurd h (by simp [sharedDeleter])
  | empty =>
    left
    refine ⟨?_, Or.inl rfl⟩
    simpa [sharedDeleter] using h.symm
  | hold o b =>
    cases o with
    | false =>
      left
      refine ⟨?_, Or.inr ⟨b, rfl⟩⟩
      simpa [sharedDeleter] using h.symm
    | true =>
      right
      refine ⟨b, ?_⟩
      match hB : blks[b]? with
      | none =>
        rw [sharedDeleter, hB] at h
        exact absurd h (by simp)
      | some B =>
        refine ⟨B, rfl, ?_⟩
        rw [sharedDeleter, hB] at h
        simp only [ReferenceCounter.remove] at h
        rw [if_neg (show ¬(true = false) by simp)] at h
        by_cases h1 : B.blkAlive = false
        · rw [if_pos h1] at h
          exact absurd h (by simp)
        rw [if_neg h1] at h
        have h1t : B.blkAlive = true := by revert h1; cases B.blkAlive <;> simp
        by_cases hc : B.count - 1 = 0
        · rw [if_pos hc] at h
          by_cases hoa : B.objAlive = false
          · rw [if_pos hoa] at h
            exact absurd h (by simp)
          rw [if_neg hoa] at h
          have hoat : B.objAlive = true := by revert hoa; cases B.objAlive <;> simp
          by_cases hw : B.weak = 0
          · rw [if_pos hw] at h
            injection h with h
            refine ⟨by simp [hB], h1t, fun _ => hoat, ?_⟩
            rw [← h]
            unfold sharedDeleterEffect
            rw [if_pos hc, if_pos hw]
          · rw [if_neg hw] at h
            injection h with h
            refine ⟨by simp [hB], h1t, fun _ => hoat, ?_⟩
            rw [← h]
            unfold sharedDeleterEffect
            rw [if_pos hc, if_neg hw]
        · rw [if_neg hc] at h
          injection h with h
          refine ⟨by simp [hB], h1t, fun hcc => absurd hcc hc, ?_⟩
          rw [← h]
          unfold sharedDeleterEffect
          rw [if_neg hc]

theorem weakDeleter_cases {blks : List ReferenceCounter} {s : WeakH}
    {blks1 : List ReferenceCounter} (h : weakDeleter blks s = some blks1) :
    (blks1 = blks ∧ (s = WeakH.empty ∨
      ∃ p b B, s = WeakH.hold p b ∧ blks[b]? = some B ∧ B.blkAlive = true ∧ B.count ≠ 0)) ∨
    (∃ p b B, s = WeakH.hold p b ∧ blks[b]? = some B ∧ B.blkAlive = true ∧ B.count = 0 ∧
      blks1 = blks.set b (weakDeleterEffect B)) := by
  cases s with
  | dead => exact absurd h (by simp [weakDeleter])
  | empty =>
    left
    refine ⟨?_, Or.inl rfl⟩
    simpa [weakDeleter] using h.symm
  | hold p b =>
    match hB : blks[b]? with
    | none =>
      rw [weakDeleter, hB] at h
      exact absurd h (by simp)
    | some B =>
      rw [weakDeleter, hB] at h
      simp only [ReferenceCounter.removeWeak] at h
      by_cases h1 : B.blkAlive = false
      · rw [if_pos h1] at h
        exact absurd h (by simp)
      rw [if_neg h1] at h
      have h1t : B.blkAlive = true := by revert h1; cases B.blkAlive <;> simp
      by_cases hc : B.count = 0
      · rw [if_pos hc] at h
        by_cases hw : B.weak - 1 = 0
        · rw [if_pos hw] at h
          injection h with h
          right
          refine ⟨p, b, B, rfl, by simp [hB], h1t, hc, ?_⟩
          rw [← h]
          unfold weakDeleterEffect
          rw [if_pos hw]
        · rw [if_neg hw] at h
          injection h with h
          right
          refine ⟨p, b, B, rfl, by simp [hB], h1t, hc, ?_⟩
          rw [← h]
          unfold weakDeleterEffect
          rw [if_neg hw]
      · rw [if_neg hc] at h
        injection h with h
        left
        exact ⟨h.symm, Or.inr ⟨p, b, B, rfl, by simp [hB], h1t, hc⟩⟩

/-! ## Small helpers -/

theorem option_inj {α : Type} {a : Option α} {x y : α} (h1 : a = some x) (h2 : a = some y) :
    x = y := by
  rw [h1] at h2
  exact Option.some.inj h2

theorem getElem?_set_other {α : Type} {l : List α} {i j : Nat} {x : α} (hne : j ≠ i) (a : α)
    (hx : l[j]? = some x) : (l.set i a)[j]? = some x := by
  rw [List.getElem?_set_ne (fun h => hne h.symm)]
  exact hx

theorem blks_set_cases {α : Type} {blks : List α} {b : Nat} {Bnew : α} {b2 : Nat} {B2 : α}
    (h2 : (blks.set b Bnew)[b2]? = some B2) :
    (b2 = b ∧ B2 = Bnew) ∨ (b2 ≠ b ∧ blks[b2]? = some B2) := by
  rcases getElem?_set_cases h2 with ⟨hbe, hBe, _⟩ | ⟨hne, hold⟩
  · exact Or.inl ⟨hbe.symm, hBe⟩
  · exact Or.inr ⟨fun hx => hne hx.symm, hold⟩

theorem countP_eq_zero_of_all {α : Type} {l : List α} {p : α → Bool}
    (h : ∀ (i : Nat) (x : α), l[i]? = some x → p x = false) : l.countP p = 0 := by
  induction l with
  | nil => rfl
  | cons a t ih =>
    rw [List.countP_cons, h 0 a (by simp)]
    simpa using ih fun i x hx => h (i + 1) x (by simpa using hx)

@[simp] theorem SharedH.refs_dead (b : Nat) : SharedH.refs b SharedH.dead = false := rfl

@[simp] theorem SharedH.refs_empty (b : Nat) : SharedH.refs b SharedH.empty = false := rfl

@[simp] theorem SharedH.refs_hold (b : Nat) (o : Bool) (b2 : Nat) :
    SharedH.refs b (SharedH.hold o b2) = (b2 == b) := rfl

@[simp] theorem WeakH.wkRefs_dead (b : Nat) : WeakH.refs b WeakH.dead = false := rfl

@[simp] theorem WeakH.wkRefs_empty (b : Nat) : WeakH.refs b WeakH.empty = false := rfl

@[simp] theorem WeakH.wkRefs_hold (b : Nat) (p : Bool) (b2 : Nat) :
    WeakH.refs b (WeakH.hold p b2) = (b2 == b) := rfl

@[simp] theorem ReferenceCounter.add_count (B : ReferenceCounter) :
    B.add.count = B.count + 1 := rfl

@[simp] theorem ReferenceCounter.add_weak (B : ReferenceCounter) : B.add.weak = B.weak := rfl

@[simp] theorem ReferenceCounter.add_hasObj (B : ReferenceCounter) :
    B.add.hasObj = B.hasObj := rfl

@[simp] theorem ReferenceCounter.add_objAlive (B : ReferenceCounter) :
    B.add.objAlive = B.objAlive := rfl

@[simp] theorem ReferenceCounter.add_objFrees (B : ReferenceCounter) :
    B.add.objFrees = B.objFrees := rfl

@[simp] theorem ReferenceCounter.add_blkAlive (B : ReferenceCounter) :
    B.add.blkAlive = B.blkAlive := rfl

@[simp] theorem ReferenceCounter.add_blkFrees (B : ReferenceCounter) :
    B.add.blkFrees = B.blkFrees := rfl

@[simp] theorem ReferenceCounter.addWeak_count (B : ReferenceCounter) :
    B.addWeak.count = B.count := rfl

@[simp] theorem ReferenceCounter.addWeak_weak (B : ReferenceCounter) :
    B.addWeak.weak = B.weak + 1 := rfl

@[simp] theorem ReferenceCounter.addWeak_hasObj (B : ReferenceCounter) :
    B.addWeak.hasObj = B.hasObj := rfl

@[simp] theorem ReferenceCounter.addWeak_objAlive (B : ReferenceCounter) :
    B.addWeak.objAlive = B.objAlive := rfl

@[simp] theorem ReferenceCounter.addWeak_objFrees (B : ReferenceCounter) :
    B.addWeak.objFrees = B.objFrees := rfl

@[simp] theorem ReferenceCounter.addWeak_blkAlive (B : ReferenceCounter) :
    B.addWeak.blkAlive = B.blkAlive := rfl

@[simp] theorem ReferenceCounter.addWeak_blkFrees (B : ReferenceCounter) :
    B.addWeak.blkFrees = B.blkFrees := rfl

@[simp] theorem sharedDeleterEffect_count (B : ReferenceCounter) :
    (sharedDeleterEffect B).count = B.count - 1 := by
  unfold sharedDeleterEffect
  split_ifs <;> rfl

@[simp] theorem sharedDeleterEffect_weak (B : ReferenceCounter) :
    (sharedDeleterEffect B).weak = B.weak := by
  unfold sharedDeleterEffect
  split_ifs <;> rfl

@[simp] theorem sharedDeleterEffect_hasObj (B : ReferenceCounter) :
    (sharedDeleterEffect B).hasObj = B.hasObj := by
  unfold sharedDeleterEffect
  split_ifs <;> rfl

theorem sharedDeleterEffect_objAlive (B : ReferenceCounter) :
    (sharedDeleterEffect B).objAlive = if B.count - 1 = 0 then false else B.objAlive := by
  unfold sharedDeleterEffect
  split_ifs <;> rfl

theorem sharedDeleterEffect_objFrees (B : ReferenceCounter) :
    (sharedDeleterEffect B).objFrees =
      if B.count - 1 = 0 then B.objFrees + 1 else B.objFrees := by
  unfold sharedDeleterEffect
  split_ifs <;> rfl

theorem sharedDeleterEffect_blkAlive (B : ReferenceCounter) :
    (sharedDeleterEffect B).blkAlive =
      if B.count - 1 = 0 then (if B.weak = 0 then false else B.blkAlive) else B.blkAlive := by
  unfold sharedDeleterEffect
  split_ifs <;> rfl

theorem sharedDeleterEffect_blkFrees (B : ReferenceCounter) :
    (sharedDeleterEffect B).blkFrees =
      if B.count - 1 = 0 then (if B.weak = 0 then B.blkFrees + 1 else B.blkFrees)
      else B.blkFrees := by
  unfold sharedDeleterEffect
  split_ifs <;> rfl

@[simp] theorem weakDeleterEffect_count (B : ReferenceCounter) :
    (weakDeleterEffect B).count = B.count := by
  unfold weakDeleterEffect
  split_ifs <;> rfl

@[simp] theorem weakDeleterEffect_weak (B : ReferenceCounter) :
    (weakDeleterEffect B).weak = B.weak - 1 := by
  unfold weakDeleterEffect
  split_ifs <;> rfl

@[simp] theorem weakDeleterEffect_hasObj (B : ReferenceCounter) :
    (weakDeleterEffect B).hasObj = B.hasObj := by
  unfold weakDeleterEffect
  split_ifs <;> rfl

@[simp] theorem weakDeleterEffect_objAlive (B : ReferenceCounter) :
    (weakDeleterEffect B).objAlive = B.objAlive := by
  unfold weakDeleterEffect
  split_ifs <;> rfl

@[simp] theorem weakDeleterEffect_objFrees (B : ReferenceCounter) :
    (weakDeleterEffect B).objFrees = B.objFrees := by
  unfold weakDeleterEffect
  split_ifs <;> rfl

theorem weakDeleterEffect_blkAlive (B : ReferenceCounter) :
    (weakDeleterEffect B).blkAlive = if B.weak - 1 = 0 then false else B.blkAlive := by
  unfold weakDeleterEffect
  split_ifs <;> rfl

theorem weakDeleterEffect_blkFrees (B : ReferenceCounter) :
    (weakDeleterEffect B).blkFrees =
      if B.weak - 1 = 0 then B.blkFrees + 1 else B.blkFrees := by
  unfold weakDeleterEffect
  split_ifs <;> rfl

theorem cntS_concat (sh : List SharedH) (s : SharedH) (b : Nat) :
    cntS (sh ++ [s]) b = cntS sh b + (if SharedH.refs b s then 1 else 0) :=
  countP_concat _ _ _

theorem cntS_set {sh : List SharedH} {i : Nat} {x : SharedH} (hx : sh[i]? = some x)
    (s : SharedH) (b : Nat) :
    cntS (sh.set i s) b =
      cntS sh b - (if SharedH.refs b x then 1 else 0) + (if SharedH.refs b s then 1 else 0) :=
  countP_set_of_getElem? _ hx s

theorem cntS_pos {sh : List SharedH} {i : Nat} {x : SharedH} {b : Nat}
    (hx : sh[i]? = some x) (hr : SharedH.refs b x = true) : 1 ≤ cntS sh b :=
  one_le_countP_of_getElem? hx hr

theorem cntS_zero {sh : List SharedH} {b : Nat} {i : Nat} {x : SharedH}
    (hc : cntS sh b = 0) (hx : sh[i]? = some x) : SharedH.refs b x = false :=
  countP_eq_zero_at hc hx

theorem boole_cntS_le {sh : List SharedH} {i : Nat} {x : SharedH} (b : Nat)
    (hx : sh[i]? = some x) : (if SharedH.refs b x then 1 else 0) ≤ cntS sh b :=
  boole_le_countP_of_getElem? _ hx

theorem cntW_concat (wk : List WeakH) (s : WeakH) (b : Nat) :
    cntW (wk ++ [s]) b = cntW wk b + (if WeakH.refs b s then 1 else 0) :=
  countP_concat _ _ _

theorem cntW_set {wk : List WeakH} {i : Nat} {x : WeakH} (hx : wk[i]? = some x)
    (s : WeakH) (b : Nat) :
    cntW (wk.set i s) b =
      cntW wk b - (if WeakH.refs b x then 1 else 0) + (if WeakH.refs b s then 1 else 0) :=
  countP_set_of_getElem? _ hx s

theorem cntW_pos {wk : List WeakH} {i : Nat} {x : WeakH} {b : Nat}
    (hx : wk[i]? = some x) (hr : WeakH.refs b x = true) : 1 ≤ cntW wk b :=
  one_le_countP_of_getElem? hx hr

theorem cntW_zero {wk : List WeakH} {b : Nat} {i : Nat} {x : WeakH}
    (hc : cntW wk b = 0) (hx : wk[i]? = some x) : WeakH.refs b x = false :=
  countP_eq_zero_at hc hx

theorem boole_cntW_le {wk : List WeakH} {i : Nat} {x : WeakH} (b : Nat)
    (hx : wk[i]? = some x) : (if WeakH.refs b x then 1 else 0) ≤ cntW wk b :=
  boole_le_countP_of_getElem? _ hx

/-! ## Preservation of the object-liveness link -/

theorem SAlive_set_add {blks : List ReferenceCounter} (hS : SAlive blks) {b : Nat}
    {B : ReferenceCounter} (hB : blks[b]? = some B) (hpos : 1 ≤ B.count) :
    SAlive (blks.set b B.add) := by
  intro b2 B2 h2 hobj
  rcases blks_set_cases h2 with ⟨hbe, hBe⟩ | ⟨hne, hold⟩
  · subst hBe
    rw [ReferenceCounter.add_hasObj] at hobj
    rw [ReferenceCounter.add_objAlive, ReferenceCounter.add_count]
    have halive := (hS b B hB hobj).2 hpos
    exact ⟨fun _ => by omega, fun _ => halive⟩
  · exact hS b2 B2 hold hobj

theorem SAlive_concat {blks : List ReferenceCounter} (hS : SAlive blks) (h : Bool) :
    SAlive (blks ++ [freshBlock h]) := by
  intro b2 B2 h2 hobj
  rcases getElem?_concat_cases h2 with hold | ⟨_, hBe⟩
  · exact hS b2 B2 hold hobj
  · subst hBe
    unfold freshBlock at hobj ⊢
    simp only at hobj ⊢
    rw [hobj]
    simp

theorem SAlive_set_sde {blks : List ReferenceCounter} (hS : SAlive blks) {b : Nat}
    {B : ReferenceCounter} (hB : blks[b]? = some B)
    (hgate : B.count - 1 = 0 → B.objAlive = true) :
    SAlive (blks.set b (sharedDeleterEffect B)) := by
  intro b2 B2 h2 hobj
  rcases blks_set_cases h2 with ⟨hbe, hBe⟩ | ⟨hne, hold⟩
  · subst hBe
    rw [sharedDeleterEffect_hasObj] at hobj
    rw [sharedDeleterEffect_objAlive, sharedDeleterEffect_count]
    by_cases hc : B.count - 1 = 0
    · simp [hc]
    · rw [if_neg hc]
      exact ⟨fun _ => by omega, fun _ => (hS b B hB hobj).2 (by omega)⟩
  · exact hS b2 B2 hold hobj

theorem SAlive_set_wde {blks : List ReferenceCounter} (hS : SAlive blks) {b : Nat}
    {B : ReferenceCounter} (hB : blks[b]? = some B) :
    SAlive (blks.set b (weakDeleterEffect B)) := by
  intro b2 B2 h2 hobj
  rcases blks_set_cases h2 with ⟨hbe, hBe⟩ | ⟨hne, hold⟩
  · subst hBe
    rw [weakDeleterEffect_hasObj] at hobj
    rw [weakDeleterEffect_objAlive, weakDeleterEffect_count]
    exact hS b B hB hobj
  · exact hS b2 B2 hold hobj

/-! ## Invariant preservation, one lemma per transition shape -/

theorem winv_appendEmptyS {w : World} (hI : WInv w) :
    WInv ⟨w.blks, w.sh ++ [SharedH.empty], w.wk⟩ := by
  constructor
  · intro i o2 b2 hi
    rcases getElem?_concat_cases hi with hold | ⟨_, heq⟩
    · exact hI.shAgree i o2 b2 hold
    · exact absurd heq (by simp)
  · exact hI.wkAgree
  · intro b2 B2 h2 hobj
    show B2.count = cntS (w.sh ++ [SharedH.empty]) b2
    rw [cntS_concat]
    simpa using hI.strongEq b2 B2 h2 hobj
  · exact hI.noObjInv
  · exact hI.weakGe
  · exact hI.objCnt
  · exact hI.blkCnt

theorem winv_attachS {w : World} (hI : WInv w) {b : Nat} {B : ReferenceCounter} {o : Bool}
    (hB : w.blks[b]? = some B) (hAlive : B.blkAlive = true) (ho : o = B.hasObj) :
    WInv ⟨w.blks.set b B.add, w.sh ++ [SharedH.hold o b], w.wk⟩ := by
  constructor
  · intro i o2 b2 hi
    rcases getElem?_concat_cases hi with hold | ⟨_, heq⟩
    · rcases hI.shAgree i o2 b2 hold with ⟨B2, hB2, ho2, hA2⟩
      by_cases hbb : b2 = b
      · rw [hbb] at hB2 ⊢
        have hbe : B2 = B := option_inj hB2 hB
        rw [hbe] at ho2
        exact ⟨B.add, getElem?_set_same hB B.add, by simpa using ho2, by simpa using hAlive⟩
      · exact ⟨B2, getElem?_set_other hbb B.add hB2, ho2, hA2⟩
    · injection heq with h1 h2
      rw [h1, h2]
      exact ⟨B.add, getElem?_set_same hB B.add, by simpa using ho, by simpa using hAlive⟩
  · intro i p b2 hi
    rcases hI.wkAgree i p b2 hi with ⟨B2, hB2, hp2, hA2⟩
    by_cases hbb : b2 = b
    · rw [hbb] at hB2 ⊢
      have hbe : B2 = B := option_inj hB2 hB
      rw [hbe] at hp2
      exact ⟨B.add, getElem?_set_same hB B.add, by simpa using hp2, by simpa using hAlive⟩
    · exact ⟨B2, getElem?_set_other hbb B.add hB2, hp2, hA2⟩
  · intro b2 B2 h2 hobj
    show B2.count = cntS (w.sh ++ [SharedH.hold o b]) b2
    rw [cntS_concat]
    rcases blks_set_cases h2 with ⟨hbe, hBe⟩ | ⟨hne, hold⟩
    · rw [hBe] at hobj ⊢
      rw [hbe]
      rw [ReferenceCounter.add_count, hI.strongEq b B hB (by simpa using hobj)]
      simp
      rfl
    · rw [hI.strongEq b2 B2 hold hobj]
      have hne2 : (b == b2) = false := by
        simp only [beq_eq_false_iff_ne]
        exact fun h => hne h.symm
      simp [hne2]
      rfl
  · intro b2 B2 h2 hobj
    rcases blks_set_cases h2 with ⟨hbe, hBe⟩ | ⟨hne, hold⟩
    · rw [hbe] at h2
      rw [hBe] at hobj ⊢
      have hno := hI.noObjInv b B hB (by simpa using hobj)
      simp only [ReferenceCounter.add_count, ReferenceCounter.add_blkAlive,
        ReferenceCounter.add_blkFrees, ReferenceCounter.add_objAlive,
        ReferenceCounter.add_objFrees]
      exact ⟨by omega, hno.2⟩
    · exact hI.noObjInv b2 B2 hold hobj
  · intro b2 B2 h2
    show cntW w.wk b2 ≤ B2.weak
    rcases blks_set_cases h2 with ⟨hbe, hBe⟩ | ⟨hne, hold⟩
    · rw [hBe, ReferenceCounter.add_weak]
      rw [hbe]
      exact hI.weakGe b B hB
    · exact hI.weakGe b2 B2 hold
  · intro b2 B2 h2 hobj
    rcases blks_set_cases h2 with ⟨hbe, hBe⟩ | ⟨hne, hold⟩
    · rw [hBe] at hobj ⊢
      simpa using hI.objCnt b B hB (by simpa using hobj)
    · exact hI.objCnt b2 B2 hold hobj
  · intro b2 B2 h2
    rcases blks_set_cases h2 with ⟨hbe, hBe⟩ | ⟨hne, hold⟩
    · rw [hBe]
      simpa using hI.blkCnt b B hB
    · exact hI.blkCnt b2 B2 hold

theorem winv_newRaw {w : World} (hI : WInv w) (h : Bool) :
    WInv ⟨w.blks ++ [freshBlock h], w.sh ++ [SharedH.hold h w.blks.length], w.wk⟩ := by
  have hshz : cntS w.sh w.blks.length = 0 := by
    apply countP_eq_zero_of_all
    intro i x hx
    cases x with
    | dead => rfl
    | empty => rfl
    | hold o b3 =>
      rcases hI.shAgree i o b3 hx with ⟨B3, hB3, _, _⟩
      have hlt : b3 < w.blks.length := (List.getElem?_eq_some_iff.1 hB3).1
      simp only [SharedH.refs_hold, beq_eq_false_iff_ne]
      omega
  have hwkz : cntW w.wk w.blks.length = 0 := by
    apply countP_eq_zero_of_all
    intro i x hx
    cases x with
    | dead => rfl
    | empty => rfl
    | hold p b3 =>
      rcases hI.wkAgree i p b3 hx with ⟨B3, hB3, _, _⟩
      have hlt : b3 < w.blks.length := (List.getElem?_eq_some_iff.1 hB3).1
      simp only [WeakH.wkRefs_hold, beq_eq_false_iff_ne]
      omega
  constructor
  · intro i o2 b2 hi
    rcases getElem?_concat_cases hi with hold | ⟨_, heq⟩
    · rcases hI.shAgree i o2 b2 hold with ⟨B2, hB2, ho2, hA2⟩
      exact ⟨B2, getElem?_concat_of_mem hB2, ho2, hA2⟩
    · injection heq with h1 h2
      rw [h1, h2]
      exact ⟨freshBlock h, List.getElem?_concat_length _ _, rfl, rfl⟩
  · intro i p b2 hi
    rcases hI.wkAgree i p b2 hi with ⟨B2, hB2, hp2, hA2⟩
    exact ⟨B2, getElem?_concat_of_mem hB2, hp2, hA2⟩
  · intro b2 B2 h2 hobj
    show B2.count = cntS (w.sh ++ [SharedH.hold h w.blks.length]) b2
    rw [cntS_concat]
    rcases getElem?_concat_cases h2 with hold | ⟨hlen, hBe⟩
    · have hlt : b2 < w.blks.length := (List.getElem?_eq_some_iff.1 hold).1
      rw [hI.strongEq b2 B2 hold hobj]
      have hne2 : (w.blks.length == b2) = false := by
        simp only [beq_eq_false_iff_ne]
        omega
      simp [hne2]
      rfl
    · rw [hBe, hlen]
      simp [freshBlock, hshz]
  · intro b2 B2 h2 hobj
    rcases getElem?_concat_cases h2 with hold | ⟨hlen, hBe⟩
    · exact hI.noObjInv b2 B2 hold hobj
    · rw [hBe] at hobj ⊢
      unfold freshBlock at hobj ⊢
      simp only at hobj
      simp [hobj]
  · intro b2 B2 h2
    show cntW w.wk b2 ≤ B2.weak
    rcases getElem?_concat_cases h2 with hold | ⟨hlen, hBe⟩
    · exact hI.weakGe b2 B2 hold
    · rw [hBe, hlen]
      simp [freshBlock, hwkz]
  · intro b2 B2 h2 hobj
    rcases getElem?_concat_cases h2 with hold | ⟨hlen, hBe⟩
    · exact hI.objCnt b2 B2 hold hobj
    · rw [hBe] at hobj ⊢
      unfold freshBlock at hobj ⊢
      simp only at hobj
      simp [hobj]
  · intro b2 B2 h2
    rcases getElem?_concat_cases h2 with hold | ⟨hlen, hBe⟩
    · exact hI.blkCnt b2 B2 hold
    · rw [hBe]
      simp [freshBlock]

theorem winv_moveS {w : World} (hI : WInv w) {src : Nat} {s : SharedH}
    (hs : w.sh[src]? = some s) :
    WInv ⟨w.blks, (w.sh.set src SharedH.empty) ++ [s], w.wk⟩ := by
  constructor
  · intro i o2 b2 hi
    rcases getElem?_concat_cases hi with hold | ⟨_, heq⟩
    · rcases getElem?_set_cases hold with ⟨_, habs, _⟩ | ⟨_, hold2⟩
      · exact absurd habs.symm (by simp)
      · exact hI.shAgree i o2 b2 hold2
    · exact hI.shAgree src o2 b2 (by rw [hs, ← heq])
  · exact hI.wkAgree
  · intro b2 B2 h2 hobj
    show B2.count = cntS ((w.sh.set src SharedH.empty) ++ [s]) b2
    rw [cntS_concat, cntS_set hs]
    have hle := boole_cntS_le b2 hs
    have hse : B2.count = cntS w.sh b2 := hI.strongEq b2 B2 h2 hobj
    simp only [SharedH.refs_empty, Bool.false_eq_true, if_false]
    omega
  · exact hI.noObjInv
  · exact hI.weakGe
  · exact hI.objCnt
  · exact hI.blkCnt

theorem winv_releaseS {w : World} (hI : WInv w) {h : Nat} {s : SharedH}
    (hs : w.sh[h]? = some s) {blks1 : List ReferenceCounter}
    (hdel : sharedDeleter w.blks s = some blks1) {r : SharedH}
    (hrhold : ∀ (o2 : Bool) (b2 : Nat), r ≠ SharedH.hold o2 b2) :
    WInv ⟨blks1, w.sh.set h r, w.wk⟩ := by
  have hrefs : ∀ b2, SharedH.refs b2 r = false := by
    intro b2
    cases r with
    | dead => rfl
    | empty => rfl
    | hold o3 b3 => exact absurd rfl (hrhold o3 b3)
  rcases sharedDeleter_cases hdel with ⟨hb1, hcase⟩ | ⟨b0, B0, hseq, hB0, hA0, hgate, hb1⟩
  · subst hb1
    constructor
    · intro i o2 b2 hi
      rcases getElem?_set_cases hi with ⟨_, habs, _⟩ | ⟨_, hold2⟩
      · exact absurd habs.symm (hrhold o2 b2)
      · exact hI.shAgree i o2 b2 hold2
    · exact hI.wkAgree
    · intro b2 B2 h2 hobj
      show B2.count = cntS (w.sh.set h r) b2
      rw [cntS_set hs, hrefs b2]
      have hsz : SharedH.refs b2 s = false := by
        rcases hcase with hse | ⟨b3, hsf⟩
        · rw [hse]; rfl
        · rw [hsf]
          simp only [SharedH.refs_hold, beq_eq_false_iff_ne]
          intro hbe
          rw [hsf] at hs
          rcases hI.shAgree h false b3 hs with ⟨B3, hB3, hfo, _⟩
          rw [hbe] at hB3
          have hb32 : B3 = B2 := option_inj hB3 h2
          rw [hb32] at hfo
          rw [hobj] at hfo
          exact Bool.noConfusion hfo
      rw [hsz]
      have hse : B2.count = cntS w.sh b2 := hI.strongEq b2 B2 h2 hobj
      simp only [Bool.false_eq_true, if_false]
      omega
    · exact hI.noObjInv
    · exact hI.weakGe
    · exact hI.objCnt
    · exact hI.blkCnt
  · subst hseq
    subst hb1
    have hobj0 : B0.hasObj = true := by
      rcases hI.shAgree h true b0 hs with ⟨B3, hB3, hto, _⟩
      have hb30 : B3 = B0 := option_inj hB3 hB0
      rw [hb30] at hto
      exact hto.symm
    have hcount0 : B0.count = cntS w.sh b0 := hI.strongEq b0 B0 hB0 hobj0
    have hcnt2 : ∀ b2, cntS (w.sh.set h r) b2
        = cntS w.sh b2 - (if SharedH.refs b2 (SharedH.hold true b0) = true then 1 else 0) := by
      intro b2
      rw [cntS_set hs, hrefs b2]
      simp
    constructor
    · intro i o2 b2 hi
      rcases getElem?_set_cases hi with ⟨_, habs, _⟩ | ⟨hineq, hold2⟩
      · exact absurd habs.symm (hrhold o2 b2)
      · rcases hI.shAgree i o2 b2 hold2 with ⟨B2, hB2, ho2, hA2⟩
        by_cases hbb : b2 = b0
        · rw [hbb] at hB2 hi ⊢
          have hbe : B2 = B0 := option_inj hB2 hB0
          rw [hbe] at ho2
          refine ⟨sharedDeleterEffect B0, getElem?_set_same hB0 _, by simpa using ho2, ?_⟩
          rw [sharedDeleterEffect_blkAlive]
          by_cases hc : B0.count - 1 = 0
          · exfalso
            have h1 : 1 ≤ cntS (w.sh.set h r) b0 := cntS_pos hi (by simp)
            rw [hcnt2 b0] at h1
            simp at h1
            omega
          · rw [if_neg hc]
            exact hA0
        · exact ⟨B2, getElem?_set_other hbb _ hB2, ho2, hA2⟩
    · intro i p2 b2 hi
      rcases hI.wkAgree i p2 b2 hi with ⟨B2, hB2, hp2, hA2⟩
      by_cases hbb : b2 = b0
      · rw [hbb] at hB2 hi ⊢
        have hbe : B2 = B0 := option_inj hB2 hB0
        rw [hbe] at hp2
        refine ⟨sharedDeleterEffect B0, getElem?_set_same hB0 _, by simpa using hp2, ?_⟩
        rw [sharedDeleterEffect_blkAlive]
        by_cases hc : B0.count - 1 = 0
        · rw [if_pos hc]
          by_cases hw : B0.weak = 0
          · exfalso
            have h1 : 1 ≤ cntW w.wk b0 := cntW_pos hi (by simp)
            have h2w : cntW w.wk b0 ≤ B0.weak := hI.weakGe b0 B0 hB0
            omega
          · rw [if_neg hw]
            exact hA0
        · rw [if_neg hc]
          exact hA0
      · exact ⟨B2, getElem?_set_other hbb _ hB2, hp2, hA2⟩
    · intro b2 B2 h2 hobj
      show B2.count = cntS (w.sh.set h r) b2
      rw [hcnt2 b2]
      rcases blks_set_cases h2 with ⟨hbe, hBe⟩ | ⟨hne, hold2⟩
      · rw [hbe]
        rw [hBe, sharedDeleterEffect_count]
        have hrt : SharedH.refs b0 (SharedH.hold true b0) = true := by simp
        rw [hrt]
        simp
        omega
      · have hne2 : (b0 == b2) = false := by
          simp only [beq_eq_false_iff_ne]
          exact fun hx => hne hx.symm
        have hse : B2.count = cntS w.sh b2 := hI.strongEq b2 B2 hold2 hobj
        simp only [SharedH.refs_hold, hne2, Bool.false_eq_true, if_false]
        omega
    · intro b2 B2 h2 hobjf
      rcases blks_set_cases h2 with ⟨hbe, hBe⟩ | ⟨hne, hold2⟩
      · exfalso
        rw [hBe, sharedDeleterEffect_hasObj] at hobjf
        rw [hobjf] at hobj0
        exact Bool.noConfusion hobj0
      · exact hI.noObjInv b2 B2 hold2 hobjf
    · intro b2 B2 h2
      show cntW w.wk b2 ≤ B2.weak
      rcases blks_set_cases h2 with ⟨hbe, hBe⟩ | ⟨hne, hold2⟩
      · rw [hbe, hBe, sharedDeleterEffect_weak]
        exact hI.weakGe b0 B0 hB0
      · exact hI.weakGe b2 B2 hold2
    · intro b2 B2 h2 hobj
      rcases blks_set_cases h2 with ⟨hbe, hBe⟩ | ⟨hne, hold2⟩
      · rw [hBe]
        rw [sharedDeleterEffect_objFrees]
        rw [sharedDeleterEffect_objAlive]
        have hoc : B0.objFrees = if B0.objAlive = true then 0 else 1 :=
          hI.objCnt b0 B0 hB0 hobj0
        by_cases hc : B0.count - 1 = 0
        · rw [if_pos hc, if_pos hc]
          have hoa := hgate hc
          rw [hoa] at hoc
          simp at hoc
          simp [hoc]
        · rw [if_neg hc, if_neg hc]
          exact hoc
      · exact hI.objCnt b2 B2 hold2 hobj
    · intro b2 B2 h2
      rcases blks_set_cases h2 with ⟨hbe, hBe⟩ | ⟨hne, hold2⟩
      · rw [hBe]
        rw [sharedDeleterEffect_blkFrees]
        rw [sharedDeleterEffect_blkAlive]
        have hbc : B0.blkFrees = if B0.blkAlive = true then 0 else 1 := hI.blkCnt b0 B0 hB0
        rw [hA0] at hbc
        simp at hbc
        by_cases hc : B0.count - 1 = 0
        · rw [if_pos hc, if_pos hc]
          by_cases hw : B0.weak = 0
          · rw [if_pos hw, if_pos hw]
            simp [hbc]
          · rw [if_neg hw, if_neg hw, hA0]
            simp [hbc]
        · rw [if_neg hc, if_neg hc, hA0]
          simp [hbc]
      · exact hI.blkCnt b2 B2 hold2

theorem winv_attachSetS {w : World} (hI : WInv w) {i : Nat}
    (hi : w.sh[i]? = some SharedH.empty) {b : Nat} {B : ReferenceCounter} {o : Bool}
    (hB : w.blks[b]? = some B) (hAlive : B.blkAlive = true) (ho : o = B.hasObj) :
    WInv ⟨w.blks.set b B.add, w.sh.set i (SharedH.hold o b), w.wk⟩ := by
  constructor
  · intro j o2 b2 hj
    rcases getElem?_set_cases hj with ⟨hij, hx, _⟩ | ⟨hij, hold2⟩
    · injection hx with h1 h2
      rw [h1, h2]
      exact ⟨B.add, getElem?_set_same hB _, by simpa using ho, by simpa using hAlive⟩
    · rcases hI.shAgree j o2 b2 hold2 with ⟨B2, hB2, ho2, hA2⟩
      by_cases hbb : b2 = b
      · rw [hbb] at hB2 ⊢
        have hbe : B2 = B := option_inj hB2 hB
        rw [hbe] at ho2
        exact ⟨B.add, getElem?_set_same hB _, by simpa using ho2, by simpa using hAlive⟩
      · exact ⟨B2, getElem?_set_other hbb _ hB2, ho2, hA2⟩
  · intro j p b2 hj
    rcases hI.wkAgree j p b2 hj with ⟨B2, hB2, hp2, hA2⟩
    by_cases hbb : b2 = b
    · rw [hbb] at hB2 ⊢
      have hbe : B2 = B := option_inj hB2 hB
      rw [hbe] at hp2
      exact ⟨B.add, getElem?_set_same hB _, by simpa using hp2, by simpa using hAlive⟩
    · exact ⟨B2, getElem?_set_other hbb _ hB2, hp2, hA2⟩
  · intro b2 B2 h2 hobj
    show B2.count = cntS (w.sh.set i (SharedH.hold o b)) b2
    rw [cntS_set hi]
    simp only [SharedH.refs_empty, Bool.false_eq_true, if_false, Nat.sub_zero]
    rcases blks_set_cases h2 with ⟨hbe, hBe⟩ | ⟨hne, hold2⟩
    · rw [hBe] at hobj ⊢
      rw [hbe]
      rw [ReferenceCounter.add_count, hI.strongEq b B hB (by simpa using hobj)]
      simp
      rfl
    · rw [hI.strongEq b2 B2 hold2 hobj]
      have hne2 : (b == b2) = false := by
        simp only [beq_eq_false_iff_ne]
        exact fun hx => hne hx.symm
      simp [hne2]
      rfl
  · intro b2 B2 h2 hobj
    rcases blks_set_cases h2 with ⟨hbe, hBe⟩ | ⟨hne, hold2⟩
    · rw [hbe] at h2
      rw [hBe] at hobj ⊢
      have hno := hI.noObjInv b B hB (by simpa using hobj)
      simp only [ReferenceCounter.add_count, ReferenceCounter.add_blkAlive,
        ReferenceCounter.add_blkFrees, ReferenceCounter.add_objAlive,
        ReferenceCounter.add_objFrees]
      exact ⟨by omega, hno.2⟩
    · exact hI.noObjInv b2 B2 hold2 hobj
  · intro b2 B2 h2
    show cntW w.wk b2 ≤ B2.weak
    rcases blks_set_cases h2 with ⟨hbe, hBe⟩ | ⟨hne, hold2⟩
    · rw [hBe, ReferenceCounter.add_weak]
      rw [hbe]
      exact hI.weakGe b B hB
    · exact hI.weakGe b2 B2 hold2
  · intro b2 B2 h2 hobj
    rcases blks_set_cases h2 with ⟨hbe, hBe⟩ | ⟨hne, hold2⟩
    · rw [hBe] at hobj ⊢
      simpa using hI.objCnt b B hB (by simpa using hobj)
    · exact hI.objCnt b2 B2 hold2 hobj
  · intro b2 B2 h2
    rcases blks_set_cases h2 with ⟨hbe, hBe⟩ | ⟨hne, hold2⟩
    · rw [hBe]
      simpa using hI.blkCnt b B hB
    · exact hI.blkCnt b2 B2 hold2

theorem winv_transferS {w : World} (hI : WInv w) {dst src : Nat} {s : SharedH}
    (hdst : w.sh[dst]? = some SharedH.empty) (hsrc : w.sh[src]? = some s) (hne : dst ≠ src) :
    WInv ⟨w.blks, (w.sh.set dst s).set src SharedH.empty, w.wk⟩ := by
  have hsrc2 : (w.sh.set dst s)[src]? = some s := getElem?_set_other (fun hx => hne hx.symm) s hsrc
  constructor
  · intro j o2 b2 hj
    rcases getElem?_set_cases hj with ⟨hij, hx, _⟩ | ⟨hij, hold2⟩
    · exact absurd hx (by simp)
    · rcases getElem?_set_cases hold2 with ⟨hij2, hx2, _⟩ | ⟨hij2, hold3⟩
      · exact hI.shAgree src o2 b2 (by rw [hsrc, ← hx2])
      · exact hI.shAgree j o2 b2 hold3
  · exact hI.wkAgree
  · intro b2 B2 h2 hobj
    show B2.count = cntS ((w.sh.set dst s).set src SharedH.empty) b2
    rw [cntS_set hsrc2, cntS_set hdst]
    have hse : B2.count = cntS w.sh b2 := hI.strongEq b2 B2 h2 hobj
    simp only [SharedH.refs_empty, Bool.false_eq_true, if_false]
    omega
  · exact hI.noObjInv
  · exact hI.weakGe
  · exact hI.objCnt
  · exact hI.blkCnt

theorem winv_swapS {w : World} (hI : WInv w) {a b : Nat} {sa sb : SharedH}
    (ha : w.sh[a]? = some sa) (hb : w.sh[b]? = some sb) :
    WInv ⟨w.blks, (w.sh.set a sb).set b sa, w.wk⟩ := by
  have hb2 : (w.sh.set a sb)[b]? = some sb := by
    by_cases hab : a = b
    · subst hab
      first
        | exact getElem?_set_same ha sb
        | exact getElem?_set_same hb sb
    · exact getElem?_set_other (fun hx => hab hx.symm) sb hb
  constructor
  · intro j o2 b2 hj
    rcases getElem?_set_cases hj with ⟨hij, hx, _⟩ | ⟨hij, hold2⟩
    · exact hI.shAgree a o2 b2 (by rw [ha, ← hx])
    · rcases getElem?_set_cases hold2 with ⟨hij2, hx2, _⟩ | ⟨hij2, hold3⟩
      · exact hI.shAgree b o2 b2 (by rw [hb, ← hx2])
      · exact hI.shAgree j o2 b2 hold3
  · exact hI.wkAgree
  · intro b2 B2 h2 hobj
    show B2.count = cntS ((w.sh.set a sb).set b sa) b2
    rw [cntS_set hb2, cntS_set ha]
    have hse : B2.count = cntS w.sh b2 := hI.strongEq b2 B2 h2 hobj
    have hle1 := boole_cntS_le b2 ha
    omega
  · exact hI.noObjInv
  · exact hI.weakGe
  · exact hI.objCnt
  · exact hI.blkCnt

theorem winv_attachW {w : World} (hI : WInv w) {b : Nat} {B : ReferenceCounter} {p : Bool}
    (hB : w.blks[b]? = some B) (hAlive : B.blkAlive = true) (hp : p = B.hasObj) :
    WInv ⟨w.blks.set b B.addWeak, w.sh, w.wk ++ [WeakH.hold p b]⟩ := by
  constructor
  · intro i o2 b2 hi
    rcases hI.shAgree i o2 b2 hi with ⟨B2, hB2, ho2, hA2⟩
    by_cases hbb : b2 = b
    · rw [hbb] at hB2 ⊢
      have hbe : B2 = B := option_inj hB2 hB
      rw [hbe] at ho2
      exact ⟨B.addWeak, getElem?_set_same hB _, by simpa using ho2, by simpa using hAlive⟩
    · exact ⟨B2, getElem?_set_other hbb _ hB2, ho2, hA2⟩
  · intro i p2 b2 hi
    rcases getElem?_concat_cases hi with hold | ⟨_, heq⟩
    · rcases hI.wkAgree i p2 b2 hold with ⟨B2, hB2, hp2, hA2⟩
      by_cases hbb : b2 = b
      · rw [hbb] at hB2 ⊢
        have hbe : B2 = B := option_inj hB2 hB
        rw [hbe] at hp2
        exact ⟨B.addWeak, getElem?_set_same hB _, by simpa using hp2, by simpa using hAlive⟩
      · exact ⟨B2, getElem?_set_other hbb _ hB2, hp2, hA2⟩
    · injection heq with h1 h2
      rw [h1, h2]
      exact ⟨B.addWeak, getElem?_set_same hB _, by simpa using hp, by simpa using hAlive⟩
  · intro b2 B2 h2 hobj
    show B2.count = cntS w.sh b2
    rcases blks_set_cases h2 with ⟨hbe, hBe⟩ | ⟨hne, hold2⟩
    · rw [hBe] at hobj ⊢
      rw [ReferenceCounter.addWeak_count]
      rw [hbe]
      exact hI.strongEq b B hB (by simpa using hobj)
    · exact hI.strongEq b2 B2 hold2 hobj
  · intro b2 B2 h2 hobj
    rcases blks_set_cases h2 with ⟨hbe, hBe⟩ | ⟨hne, hold2⟩
    · rw [hBe] at hobj ⊢
      have hno := hI.noObjInv b B hB (by simpa using hobj)
      simp only [ReferenceCounter.addWeak_count, ReferenceCounter.addWeak_blkAlive,
        ReferenceCounter.addWeak_blkFrees, ReferenceCounter.addWeak_objAlive,
        ReferenceCounter.addWeak_objFrees]
      exact hno
    · exact hI.noObjInv b2 B2 hold2 hobj
  · intro b2 B2 h2
    show cntW (w.wk ++ [WeakH.hold p b]) b2 ≤ B2.weak
    rw [cntW_concat]
    rcases blks_set_cases h2 with ⟨hbe, hBe⟩ | ⟨hne, hold2⟩
    · rw [hBe, ReferenceCounter.addWeak_weak]
      rw [hbe]
      have hwge : cntW w.wk b ≤ B.weak := hI.weakGe b B hB
      simp
      omega
    · have hwge : cntW w.wk b2 ≤ B2.weak := hI.weakGe b2 B2 hold2
      have hne2 : (b == b2) = false := by
        simp only [beq_eq_false_iff_ne]
        exact fun hx => hne hx.symm
      simp [hne2]
      omega
  · intro b2 B2 h2 hobj
    rcases blks_set_cases h2 with ⟨hbe, hBe⟩ | ⟨hne, hold2⟩
    · rw [hBe] at hobj ⊢
      simpa using hI.objCnt b B hB (by simpa using hobj)
    · exact hI.objCnt b2 B2 hold2 hobj
  · intro b2 B2 h2
    rcases blks_set_cases h2 with ⟨hbe, hBe⟩ | ⟨hne, hold2⟩
    · rw [hBe]
      simpa using hI.blkCnt b B hB
    · exact hI.blkCnt b2 B2 hold2

theorem winv_attachSetW {w : World} (hI : WInv w) {i : Nat}
    (hi : w.wk[i]? = some WeakH.empty) {b : Nat} {B : ReferenceCounter} {p : Bool}
    (hB : w.blks[b]? = some B) (hAlive : B.blkAlive = true) (hp : p = B.hasObj) :
    WInv ⟨w.blks.set b B.addWeak, w.sh, w.wk.set i (WeakH.hold p b)⟩ := by
  constructor
  · intro j o2 b2 hj
    rcases hI.shAgree j o2 b2 hj with ⟨B2, hB2, ho2, hA2⟩
    by_cases hbb : b2 = b
    · rw [hbb] at hB2 ⊢
      have hbe : B2 = B := option_inj hB2 hB
      rw [hbe] at ho2
      exact ⟨B.addWeak, getElem?_set_same hB _, by simpa using ho2, by simpa using hAlive⟩
    · exact ⟨B2, getElem?_set_other hbb _ hB2, ho2, hA2⟩
  · intro j p2 b2 hj
    rcases getElem?_set_cases hj with ⟨hij, hx, _⟩ | ⟨hij, hold2⟩
    · injection hx with h1 h2
      rw [h1, h2]
      exact ⟨B.addWeak, getElem?_set_same hB _, by simpa using hp, by simpa using hAlive⟩
    · rcases hI.wkAgree j p2 b2 hold2 with ⟨B2, hB2, hp2, hA2⟩
      by_cases hbb : b2 = b
      · rw [hbb] at hB2 ⊢
        have hbe : B2 = B := option_inj hB2 hB
        rw [hbe] at hp2
        exact ⟨B.addWeak, getElem?_set_same hB _, by simpa using hp2, by simpa using hAlive⟩
      · exact ⟨B2, getElem?_set_other hbb _ hB2, hp2, hA2⟩
  · intro b2 B2 h2 hobj
    show B2.count = cntS w.sh b2
    rcases blks_set_cases h2 with ⟨hbe, hBe⟩ | ⟨hne, hold2⟩
    · rw [hBe] at hobj ⊢
      rw [ReferenceCounter.addWeak_count]
      rw [hbe]
      exact hI.strongEq b B hB (by simpa using hobj)
    · exact hI.strongEq b2 B2 hold2 hobj
  · intro b2 B2 h2 hobj
    rcases blks_set_cases h2 with ⟨hbe, hBe⟩ | ⟨hne, hold2⟩
    · rw [hBe] at hobj ⊢
      have hno := hI.noObjInv b B hB (by simpa using hobj)
      simp only [ReferenceCounter.addWeak_count, ReferenceCounter.addWeak_blkAlive,
        ReferenceCounter.addWeak_blkFrees, ReferenceCounter.addWeak_objAlive,
        ReferenceCounter.addWeak_objFrees]
      exact hno
    · exact hI.noObjInv b2 B2 hold2 hobj
  · intro b2 B2 h2
    show cntW (w.wk.set i (WeakH.hold p b)) b2 ≤ B2.weak
    rw [cntW_set hi]
    simp only [WeakH.wkRefs_empty, Bool.false_eq_true, if_false, Nat.sub_zero]
    rcases blks_set_cases h2 with ⟨hbe, hBe⟩ | ⟨hne, hold2⟩
    · rw [hBe, ReferenceCounter.addWeak_weak]
      rw [hbe]
      have hwge : cntW w.wk b ≤ B.weak := hI.weakGe b B hB
      simp
      omega
    · have hwge : cntW w.wk b2 ≤ B2.weak := hI.weakGe b2 B2 hold2
      have hne2 : (b == b2) = false := by
        simp only [beq_eq_false_iff_ne]
        exact fun hx => hne hx.symm
      simp [hne2]
      omega
  · intro b2 B2 h2 hobj
    rcases blks_set_cases h2 with ⟨hbe, hBe⟩ | ⟨hne, hold2⟩
    · rw [hBe] at hobj ⊢
      simpa using hI.objCnt b B hB (by simpa using hobj)
    · exact hI.objCnt b2 B2 hold2 hobj
  · intro b2 B2 h2
    rcases blks_set_cases h2 with ⟨hbe, hBe⟩ | ⟨hne, hold2⟩
    · rw [hBe]
      simpa using hI.blkCnt b B hB
    · exact hI.blkCnt b2 B2 hold2

theorem winv_moveW {w : World} (hI : WInv w) {src : Nat} {s : WeakH}
    (hs : w.wk[src]? = some s) :
    WInv ⟨w.blks, w.sh, (w.wk.set src WeakH.empty) ++ [s]⟩ := by
  constructor
  · exact hI.shAgree
  · intro i p2 b2 hi
    rcases getElem?_concat_cases hi with hold | ⟨_, heq⟩
    · rcases getElem?_set_cases hold with ⟨_, habs, _⟩ | ⟨_, hold2⟩
      · exact absurd habs.symm (by simp)
      · exact hI.wkAgree i p2 b2 hold2
    · exact hI.wkAgree src p2 b2 (by rw [hs, ← heq])
  · exact hI.strongEq
  · exact hI.noObjInv
  · intro b2 B2 h2
    show cntW ((w.wk.set src WeakH.empty) ++ [s]) b2 ≤ B2.weak
    rw [cntW_concat, cntW_set hs]
    have hle := boole_cntW_le b2 hs
    have hge : cntW w.wk b2 ≤ B2.weak := hI.weakGe b2 B2 h2
    simp only [WeakH.wkRefs_empty, Bool.false_eq_true, if_false]
    omega
  · exact hI.objCnt
  · exact hI.blkCnt

theorem winv_transferW {w : World} (hI : WInv w) {dst src : Nat} {s : WeakH}
    (hdst : w.wk[dst]? = some WeakH.empty) (hsrc : w.wk[src]? = some s) (hne : dst ≠ src) :
    WInv ⟨w.blks, w.sh, (w.wk.set dst s).set src WeakH.empty⟩ := by
  have hsrc2 : (w.wk.set dst s)[src]? = some s := getElem?_set_other (fun hx => hne hx.symm) s hsrc
  constructor
  · exact hI.shAgree
  · intro j p2 b2 hj
    rcases getElem?_set_cases hj with ⟨hij, hx, _⟩ | ⟨hij, hold2⟩
    · exact absurd hx (by simp)
    · rcases getElem?_set_cases hold2 with ⟨hij2, hx2, _⟩ | ⟨hij2, hold3⟩
      · exact hI.wkAgree src p2 b2 (by rw [hsrc, ← hx2])
      · exact hI.wkAgree j p2 b2 hold3
  · exact hI.strongEq
  · exact hI.noObjInv
  · intro b2 B2 h2
    show cntW ((w.wk.set dst s).set src WeakH.empty) b2 ≤ B2.weak
    rw [cntW_set hsrc2, cntW_set hdst]
    have hge : cntW w.wk b2 ≤ B2.weak := hI.weakGe b2 B2 h2
    simp only [WeakH.wkRefs_empty, Bool.false_eq_true, if_false]
    omega
  · exact hI.objCnt
  · exact hI.blkCnt

theorem winv_swapW {w : World} (hI : WInv w) {a b : Nat} {sa sb : WeakH}
    (ha : w.wk[a]? = some sa) (hb : w.wk[b]? = some sb) :
    WInv ⟨w.blks, w.sh, (w.wk.set a sb).set b sa⟩ := by
  have hb2 : (w.wk.set a sb)[b]? = some sb := by
    by_cases hab : a = b
    · subst hab
      first
        | exact getElem?_set_same ha sb
        | exact getElem?_set_same hb sb
    · exact getElem?_set_other (fun hx => hab hx.symm) sb hb
  constructor
  · exact hI.shAgree
  · intro j p2 b2 hj
    rcases getElem?_set_cases hj with ⟨hij, hx, _⟩ | ⟨hij, hold2⟩
    · exact hI.wkAgree a p2 b2 (by rw [ha, ← hx])
    · rcases getElem?_set_cases hold2 with ⟨hij2, hx2, _⟩ | ⟨hij2, hold3⟩
      · exact hI.wkAgree b p2 b2 (by rw [hb, ← hx2])
      · exact hI.wkAgree j p2 b2 hold3
  · exact hI.strongEq
  · exact hI.noObjInv
  · intro b2 B2 h2
    show cntW ((w.wk.set a sb).set b sa) b2 ≤ B2.weak
    rw [cntW_set hb2, cntW_set ha]
    have hge : cntW w.wk b2 ≤ B2.weak := hI.weakGe b2 B2 h2
    have hle1 := boole_cntW_le b2 ha
    omega
  · exact hI.objCnt
  · exact hI.blkCnt

theorem winv_releaseW {w : World} (hI : WInv w) {h : Nat} {s : WeakH}
    (hs : w.wk[h]? = some s) {blks1 : List ReferenceCounter}
    (hdel : weakDeleter w.blks s = some blks1) {r : WeakH}
    (hrhold : ∀ (p2 : Bool) (b2 : Nat), r ≠ WeakH.hold p2 b2) :
    WInv ⟨blks1, w.sh, w.wk.set h r⟩ := by
  have hrefs : ∀ b2, WeakH.refs b2 r = false := by
    intro b2
    cases r with
    | dead => rfl
    | empty => rfl
    | hold p3 b3 => exact absurd rfl (hrhold p3 b3)
  rcases weakDeleter_cases hdel with ⟨hb1, hcase⟩ | ⟨p0, b0, B0, hseq, hB0, hA0, hc0, hb1⟩
  · subst hb1
    constructor
    · exact hI.shAgree
    · intro i p2 b2 hi
      rcases getElem?_set_cases hi with ⟨_, habs, _⟩ | ⟨_, hold2⟩
      · exact absurd habs.symm (hrhold p2 b2)
      · exact hI.wkAgree i p2 b2 hold2
    · exact hI.strongEq
    · exact hI.noObjInv
    · intro b2 B2 h2
      show cntW (w.wk.set h r) b2 ≤ B2.weak
      rw [cntW_set hs, hrefs b2]
      have hge : cntW w.wk b2 ≤ B2.weak := hI.weakGe b2 B2 h2
      have hle := boole_cntW_le b2 hs
      simp only [Bool.false_eq_true, if_false]
      omega
    · exact hI.objCnt
    · exact hI.blkCnt
  · subst hseq
    subst hb1
    have hobj0 : B0.hasObj = true := by
      cases hof : B0.hasObj with
      | true => rfl
      | false =>
        have := (hI.noObjInv b0 B0 hB0 hof).1
        omega
    have hwk2 : ∀ b2, cntW (w.wk.set h r) b2
        = cntW w.wk b2 - (if WeakH.refs b2 (WeakH.hold p0 b0) = true then 1 else 0) := by
      intro b2
      rw [cntW_set hs, hrefs b2]
      simp
    have hcntW0 : 1 ≤ cntW w.wk b0 := cntW_pos hs (by simp)
    have hge0 : cntW w.wk b0 ≤ B0.weak := hI.weakGe b0 B0 hB0
    constructor
    · intro i o2 b2 hi
      rcases hI.shAgree i o2 b2 hi with ⟨B2, hB2, ho2, hA2⟩
      by_cases hbb : b2 = b0
      · rw [hbb] at hB2 hi ⊢
        have hbe : B2 = B0 := option_inj hB2 hB0
        rw [hbe] at ho2
        refine ⟨weakDeleterEffect B0, getElem?_set_same hB0 _, by simpa using ho2, ?_⟩
        rw [weakDeleterEffect_blkAlive]
        by_cases hwz : B0.weak - 1 = 0
        · exfalso
          have h1 : 1 ≤ cntS w.sh b0 := cntS_pos hi (by simp)
          have hse : B0.count = cntS w.sh b0 := hI.strongEq b0 B0 hB0 hobj0
          omega
        · rw [if_neg hwz]
          exact hA0
      · exact ⟨B2, getElem?_set_other hbb _ hB2, ho2, hA2⟩
    · intro i p2 b2 hi
      rcases getElem?_set_cases hi with ⟨_, habs, _⟩ | ⟨hineq, hold2⟩
      · exact absurd habs.symm (hrhold p2 b2)
      · rcases hI.wkAgree i p2 b2 hold2 with ⟨B2, hB2, hp2, hA2⟩
        by_cases hbb : b2 = b0
        · rw [hbb] at hB2 hi ⊢
          have hbe : B2 = B0 := option_inj hB2 hB0
          rw [hbe] at hp2
          refine ⟨weakDeleterEffect B0, getElem?_set_same hB0 _, by simpa using hp2, ?_⟩
          rw [weakDeleterEffect_blkAlive]
          by_cases hwz : B0.weak - 1 = 0
          · exfalso
            have h1 : 1 ≤ cntW (w.wk.set h r) b0 := cntW_pos hi (by simp)
            rw [hwk2 b0] at h1
            simp at h1
            omega
          · rw [if_neg hwz]
            exact hA0
        · exact ⟨B2, getElem?_set_other hbb _ hB2, hp2, hA2⟩
    · intro b2 B2 h2 hobj
      show B2.count = cntS w.sh b2
      rcases blks_set_cases h2 with ⟨hbe, hBe⟩ | ⟨hne, hold2⟩
      · rw [hBe] at hobj ⊢
        rw [weakDeleterEffect_count]
        rw [hbe]
        exact hI.strongEq b0 B0 hB0 (by simpa using hobj)
      · exact hI.strongEq b2 B2 hold2 hobj
    · intro b2 B2 h2 hobjf
      rcases blks_set_cases h2 with ⟨hbe, hBe⟩ | ⟨hne, hold2⟩
      · exfalso
        rw [hBe, weakDeleterEffect_hasObj] at hobjf
        rw [hobjf] at hobj0
        exact Bool.noConfusion hobj0
      · exact hI.noObjInv b2 B2 hold2 hobjf
    · intro b2 B2 h2
      show cntW (w.wk.set h r) b2 ≤ B2.weak
      rw [hwk2 b2]
      rcases blks_set_cases h2 with ⟨hbe, hBe⟩ | ⟨hne, hold2⟩
      · rw [hbe]
        rw [hBe, weakDeleterEffect_weak]
        simp
        omega
      · have hge : cntW w.wk b2 ≤ B2.weak := hI.weakGe b2 B2 hold2
        have hne2 : (b0 == b2) = false := by
          simp only [beq_eq_false_iff_ne]
          exact fun hx => hne hx.symm
        simp [hne2]
        omega
    · intro b2 B2 h2 hobj
      rcases blks_set_cases h2 with ⟨hbe, hBe⟩ | ⟨hne, hold2⟩
      · rw [hBe] at hobj ⊢
        rw [weakDeleterEffect_objFrees, weakDeleterEffect_objAlive]
        exact hI.objCnt b0 B0 hB0 (by simpa using hobj)
      · exact hI.objCnt b2 B2 hold2 hobj
    · intro b2 B2 h2
      rcases blks_set_cases h2 with ⟨hbe, hBe⟩ | ⟨hne, hold2⟩
      · rw [hBe]
        rw [weakDeleterEffect_blkFrees]
        rw [weakDeleterEffect_blkAlive]
        have hbc : B0.blkFrees = if B0.blkAlive = true then 0 else 1 := hI.blkCnt b0 B0 hB0
        rw [hA0] at hbc
        simp at hbc
        by_cases hwz : B0.weak - 1 = 0
        · rw [if_pos hwz, if_pos hwz]
          simp [hbc]
        · rw [if_neg hwz, if_neg hwz, hA0]
          simp [hbc]
      · exact hI.blkCnt b2 B2 hold2

theorem winv_newRawSetS {w : World} (hI : WInv w) {i : Nat}
    (hi : w.sh[i]? = some SharedH.empty) (h : Bool) :
    WInv ⟨w.blks ++ [freshBlock h], w.sh.set i (SharedH.hold h w.blks.length), w.wk⟩ := by
  have hshz : cntS w.sh w.blks.length = 0 := by
    apply countP_eq_zero_of_all
    intro j x hx
    cases x with
    | dead => rfl
    | empty => rfl
    | hold o b3 =>
      rcases hI.shAgree j o b3 hx with ⟨B3, hB3, _, _⟩
      have hlt : b3 < w.blks.length := (List.getElem?_eq_some_iff.1 hB3).1
      simp only [SharedH.refs_hold, beq_eq_false_iff_ne]
      omega
  have hwkz : cntW w.wk w.blks.length = 0 := by
    apply countP_eq_zero_of_all
    intro j x hx
    cases x with
    | dead => rfl
    | empty => rfl
    | hold p b3 =>
      rcases hI.wkAgree j p b3 hx with ⟨B3, hB3, _, _⟩
      have hlt : b3 < w.blks.length := (List.getElem?_eq_some_iff.1 hB3).1
      simp only [WeakH.wkRefs_hold, beq_eq_false_iff_ne]
      omega
  constructor
  · intro j o2 b2 hj
    rcases getElem?_set_cases hj with ⟨hij, hx, _⟩ | ⟨hij, hold2⟩
    · injection hx with h1 h2
      rw [h1, h2]
      exact ⟨freshBlock h, List.getElem?_concat_length _ _, rfl, rfl⟩
    · rcases hI.shAgree j o2 b2 hold2 with ⟨B2, hB2, ho2, hA2⟩
      exact ⟨B2, getElem?_concat_of_mem hB2, ho2, hA2⟩
  · intro j p b2 hj
    rcases hI.wkAgree j p b2 hj with ⟨B2, hB2, hp2, hA2⟩
    exact ⟨B2, getElem?_concat_of_mem hB2, hp2, hA2⟩
  · intro b2 B2 h2 hobj
    show B2.count = cntS (w.sh.set i (SharedH.hold h w.blks.length)) b2
    rw [cntS_set hi]
    simp only [SharedH.refs_empty, Bool.false_eq_true, if_false, Nat.sub_zero]
    rcases getElem?_concat_cases h2 with hold | ⟨hlen, hBe⟩
    · have hlt : b2 < w.blks.length := (List.getElem?_eq_some_iff.1 hold).1
      rw [hI.strongEq b2 B2 hold hobj]
      have hne2 : (w.blks.length == b2) = false := by
        simp only [beq_eq_false_iff_ne]
        omega
      simp [hne2]
      rfl
    · rw [hBe, hlen]
      simp [freshBlock, hshz]
  · intro b2 B2 h2 hobj
    rcases getElem?_concat_cases h2 with hold | ⟨hlen, hBe⟩
    · exact hI.noObjInv b2 B2 hold hobj
    · rw [hBe] at hobj ⊢
      unfold freshBlock at hobj ⊢
      simp only at hobj
      simp [hobj]
  · intro b2 B2 h2
    show cntW w.wk b2 ≤ B2.weak
    rcases getElem?_concat_cases h2 with hold | ⟨hlen, hBe⟩
    · exact hI.weakGe b2 B2 hold
    · rw [hBe, hlen]
      simp [freshBlock, hwkz]
  · intro b2 B2 h2 hobj
    rcases getElem?_concat_cases h2 with hold | ⟨hlen, hBe⟩
    · exact hI.objCnt b2 B2 hold hobj
    · rw [hBe] at hobj ⊢
      unfold freshBlock at hobj ⊢
      simp only at hobj
      simp [hobj]
  · intro b2 B2 h2
    rcases getElem?_concat_cases h2 with hold | ⟨hlen, hBe⟩
    · exact hI.blkCnt b2 B2 hold
    · rw [hBe]
      simp [freshBlock]

theorem winv_step {w w2 : World} {o : Op} (hI : WInv w) (hstep : step w o = some w2) :
    WInv w2 := by
  cases o with
  | sNewRaw ho =>
    simp only [step] at hstep
    injection hstep with h2
    subst h2
    exact winv_newRaw hI ho
  | sCopyCtor src =>
    simp only [step] at hstep
    match hsrc : w.sh[src]? with
    | none => simp only [hsrc] at hstep; exact absurd hstep (by simp)
    | some SharedH.dead => simp only [hsrc] at hstep; exact absurd hstep (by simp)
    | some SharedH.empty =>
      simp only [hsrc] at hstep
      injection hstep with h2
      subst h2
      exact winv_appendEmptyS hI
    | some (SharedH.hold o2 b) =>
      simp only [hsrc] at hstep
      match hB : w.blks[b]? with
      | none => simp only [hB] at hstep; exact absurd hstep (by simp)
      | some B =>
        simp only [hB] at hstep
        by_cases hAl : B.blkAlive = false
        · rw [if_pos hAl] at hstep
          exact absurd hstep (by simp)
        · rw [if_neg hAl] at hstep
          injection hstep with h2
          subst h2
          rcases hI.shAgree src o2 b hsrc with ⟨B3, hB3, ho3, _⟩
          have hbe : B3 = B := option_inj hB3 hB
          rw [hbe] at ho3
          exact winv_attachS hI hB (by revert hAl; cases B.blkAlive <;> simp) ho3
  | sMoveCtor src =>
    simp only [step] at hstep
    match hsrc : w.sh[src]? with
    | none => simp only [hsrc] at hstep; exact absurd hstep (by simp)
    | some SharedH.dead => simp only [hsrc] at hstep; exact absurd hstep (by simp)
    | some SharedH.empty =>
      simp only [hsrc] at hstep
      injection hstep with h2
      subst h2
      exact winv_moveS hI hsrc
    | some (SharedH.hold o2 b) =>
      simp only [hsrc] at hstep
      injection hstep with h2
      subst h2
      exact winv_moveS hI hsrc
  | sFromWeakCtor src =>
    simp only [step] at hstep
    match hsrc : w.wk[src]? with
    | none => simp only [hsrc] at hstep; exact absurd hstep (by simp)
    | some WeakH.dead => simp only [hsrc] at hstep; exact absurd hstep (by simp)
    | some WeakH.empty =>
      simp only [hsrc] at hstep
      injection hstep with h2
      subst h2
      exact winv_appendEmptyS hI
    | some (WeakH.hold p b) =>
      simp only [hsrc] at hstep
      match hB : w.blks[b]? with
      | none => simp only [hB] at hstep; exact absurd hstep (by simp)
      | some B =>
        simp only [hB] at hstep
        by_cases hAl : B.blkAlive = false
        · rw [if_pos hAl] at hstep
          exact absurd hstep (by simp)
        · rw [if_neg hAl] at hstep
          injection hstep with h2
          subst h2
          rcases hI.wkAgree src p b hsrc with ⟨B3, hB3, hp3, _⟩
          have hbe : B3 = B := option_inj hB3 hB
          rw [hbe] at hp3
          exact winv_attachS hI hB (by revert hAl; cases B.blkAlive <;> simp) hp3
  | sDtor hh =>
    simp only [step] at hstep
    match hs : w.sh[hh]? with
    | none => simp only [hs] at hstep; exact absurd hstep (by simp)
    | some s =>
      simp only [hs] at hstep
      match hdel : sharedDeleter w.blks s with
      | none => simp only [hdel] at hstep; exact absurd hstep (by simp)
      | some blks1 =>
        simp only [hdel] at hstep
        injection hstep with h2
        subst h2
        exact winv_releaseS hI hs hdel (fun o2 b2 => by simp)
  | sCopyAssign dst src =>
    simp only [step] at hstep
    match hd : w.sh[dst]? with
    | none => simp only [hd] at hstep; exact absurd hstep (by simp)
    | some SharedH.dead => simp only [hd] at hstep; exact absurd hstep (by simp)
    | some SharedH.empty =>
      simp only [hd] at hstep
      match hs : w.sh[src]? with
      | none => simp only [hs] at hstep; exact absurd hstep (by simp)
      | some SharedH.dead => simp only [hs] at hstep; exact absurd hstep (by simp)
      | some SharedH.empty =>
        simp only [hs] at hstep
        by_cases hds : dst = src
        · rw [if_pos hds] at hstep
          injection hstep with h2
          subst h2
          exact hI
        · rw [if_neg hds] at hstep
          simp only [sharedDeleter] at hstep
          exact absurd hstep (by simp)
      | some (SharedH.hold o2 b) =>
        simp only [hs] at hstep
        by_cases hds : dst = src
        · rw [if_pos hds] at hstep
          injection hstep with h2
          subst h2
          exact hI
        · rw [if_neg hds] at hstep
          simp only [sharedDeleter] at hstep
          match hB : w.blks[b]? with
          | none => simp only [hB] at hstep; exact absurd hstep (by simp)
          | some B =>
            simp only [hB] at hstep
            by_cases hAl : B.blkAlive = false
            · rw [if_pos hAl] at hstep
              exact absurd hstep (by simp)
            · rw [if_neg hAl] at hstep
              injection hstep with h2
              subst h2
              rcases hI.shAgree src o2 b hs with ⟨B3, hB3, ho3, _⟩
              have hbe : B3 = B := option_inj hB3 hB
              rw [hbe] at ho3
              have hA2 : B.blkAlive = true := by revert hAl; cases B.blkAlive <;> simp
              exact winv_attachSetS hI hd hB hA2 ho3
    | some (SharedH.hold o2 b) =>
      simp only [hd] at hstep
      match hs : w.sh[src]? with
      | none => simp only [hs] at hstep; exact absurd hstep (by simp)
      | some SharedH.dead => simp only [hs] at hstep; exact absurd hstep (by simp)
      | some SharedH.empty =>
        simp only [hs] at hstep
        by_cases hds : dst = src
        · rw [if_pos hds] at hstep
          injection hstep with h2
          subst h2
          exact hI
        · rw [if_neg hds] at hstep
          match hdel : sharedDeleter w.blks (SharedH.hold o2 b) with
          | none => simp only [hdel] at hstep; exact absurd hstep (by simp)
          | some blks1 =>
            simp only [hdel] at hstep
            exact absurd hstep (by simp)
      | some (SharedH.hold o3 b3) =>
        simp only [hs] at hstep
        by_cases hds : dst = src
        · rw [if_pos hds] at hstep
          injection hstep with h2
          subst h2
          exact hI
        · rw [if_neg hds] at hstep
          match hdel : sharedDeleter w.blks (SharedH.hold o2 b) with
          | none => simp only [hdel] at hstep; exact absurd hstep (by simp)
          | some blks1 =>
            simp only [hdel] at hstep
            match hB : blks1[b3]? with
            | none => simp only [hB] at hstep; exact absurd hstep (by simp)
            | some B =>
              simp only [hB] at hstep
              by_cases hAl : B.blkAlive = false
              · rw [if_pos hAl] at hstep
                exact absurd hstep (by simp)
              · rw [if_neg hAl] at hstep
                injection hstep with h2
                subst h2
                have hI1 : WInv ⟨blks1, w.sh.set dst SharedH.empty, w.wk⟩ :=
                  winv_releaseS hI hd hdel (fun o4 b4 => by simp)
                have hsrc1 : (w.sh.set dst SharedH.empty)[src]? = some (SharedH.hold o3 b3) :=
                  getElem?_set_other (fun hx => hds hx.symm) _ hs
                rcases hI1.shAgree src o3 b3 hsrc1 with ⟨B4, hB4, ho4, _⟩
                have hbe4 : B4 = B := option_inj hB4 hB
                rw [hbe4] at ho4
                have hA2 : B.blkAlive = true := by revert hAl; cases B.blkAlive <;> simp
                have hres := winv_attachSetS hI1 (getElem?_set_same hd SharedH.empty) hB hA2 ho4
                rw [List.set_set] at hres
                exact hres
  | sMoveAssign dst src =>
    simp only [step] at hstep
    match hd : w.sh[dst]? with
    | none => simp only [hd] at hstep; exact absurd hstep (by simp)
    | some SharedH.dead => simp only [hd] at hstep; exact absurd hstep (by simp)
    | some SharedH.empty =>
      simp only [hd] at hstep
      match hs : w.sh[src]? with
      | none => simp only [hs] at hstep; exact absurd hstep (by simp)
      | some SharedH.dead => simp only [hs] at hstep; exact absurd hstep (by simp)
      | some SharedH.empty =>
        simp only [hs] at hstep
        by_cases hds : dst = src
        · rw [if_pos hds] at hstep
          injection hstep with h2
          subst h2
          exact hI
        · rw [if_neg hds] at hstep
          simp only [sharedDeleter] at hstep
          injection hstep with h2
          subst h2
          exact winv_transferS hI hd hs hds
      | some (SharedH.hold o3 b3) =>
        simp only [hs] at hstep
        by_cases hds : dst = src
        · rw [if_pos hds] at hstep
          injection hstep with h2
          subst h2
          exact hI
        · rw [if_neg hds] at hstep
          simp only [sharedDeleter] at hstep
          injection hstep with h2
          subst h2
          exact winv_transferS hI hd hs hds
    | some (SharedH.hold o2 b) =>
      simp only [hd] at hstep
      match hs : w.sh[src]? with
      | none => simp only [hs] at hstep; exact absurd hstep (by simp)
      | some SharedH.dead => simp only [hs] at hstep; exact absurd hstep (by simp)
      | some SharedH.empty =>
        simp only [hs] at hstep
        by_cases hds : dst = src
        · rw [if_pos hds] at hstep
          injection hstep with h2
          subst h2
          exact hI
        · rw [if_neg hds] at hstep
          match hdel : sharedDeleter w.blks (SharedH.hold o2 b) with
          | none => simp only [hdel] at hstep; exact absurd hstep (by simp)
          | some blks1 =>
            simp only [hdel] at hstep
            injection hstep with h2
            subst h2
            have hI1 : WInv ⟨blks1, w.sh.set dst SharedH.empty, w.wk⟩ :=
              winv_releaseS hI hd hdel (fun o4 b4 => by simp)
            have hsrc1 : (w.sh.set dst SharedH.empty)[src]? = some SharedH.empty :=
              getElem?_set_other (fun hx => hds hx.symm) _ hs
            have hres := winv_transferS hI1 (getElem?_set_same hd SharedH.empty) hsrc1 hds
            rw [List.set_set] at hres
            exact hres
      | some (SharedH.hold o3 b3) =>
        simp only [hs] at hstep
        by_cases hds : dst = src
        · rw [if_pos hds] at hstep
          injection hstep with h2
          subst h2
          exact hI
        · rw [if_neg hds] at hstep
          match hdel : sharedDeleter w.blks (SharedH.hold o2 b) with
          | none => simp only [hdel] at hstep; exact absurd hstep (by simp)
          | some blks1 =>
            simp only [hdel] at hstep
            injection hstep with h2
            subst h2
            have hI1 : WInv ⟨blks1, w.sh.set dst SharedH.empty, w.wk⟩ :=
              winv_releaseS hI hd hdel (fun o4 b4 => by simp)
            have hsrc1 : (w.sh.set dst SharedH.empty)[src]? = some (SharedH.hold o3 b3) :=
              getElem?_set_other (fun hx => hds hx.symm) _ hs
            have hres := winv_transferS hI1 (getElem?_set_same hd SharedH.empty) hsrc1 hds
            rw [List.set_set] at hres
            exact hres
  | sReset hh =>
    simp only [step] at hstep
    match hs : w.sh[hh]? with
    | none => simp only [hs] at hstep; exact absurd hstep (by simp)
    | some s =>
      simp only [hs] at hstep
      match hdel : sharedDeleter w.blks s with
      | none => simp only [hdel] at hstep; exact absurd hstep (by simp)
      | some blks1 =>
        simp only [hdel] at hstep
        injection hstep with h2
        subst h2
        exact winv_releaseS hI hs hdel (fun o2 b2 => by simp)
  | sResetPtr hh =>
    simp only [step] at hstep
    match hs : w.sh[hh]? with
    | none => simp only [hs] at hstep; exact absurd hstep (by simp)
    | some s =>
      simp only [hs] at hstep
      match hdel : sharedDeleter w.blks s with
      | none => simp only [hdel] at hstep; exact absurd hstep (by simp)
      | some blks1 =>
        simp only [hdel] at hstep
        injection hstep with h2
        subst h2
        have hI1 : WInv ⟨blks1, w.sh.set hh SharedH.empty, w.wk⟩ :=
          winv_releaseS hI hs hdel (fun o2 b2 => by simp)
        have hres := winv_newRawSetS hI1 (getElem?_set_same hs SharedH.empty) true
        rw [List.set_set] at hres
        exact hres
  | sSwap a b =>
    simp only [step] at hstep
    match ha : w.sh[a]? with
    | none => simp only [ha] at hstep; exact absurd hstep (by simp)
    | some SharedH.dead => simp only [ha] at hstep; exact absurd hstep (by simp)
    | some SharedH.empty =>
      simp only [ha] at hstep
      match hb : w.sh[b]? with
      | none => simp only [hb] at hstep; exact absurd hstep (by simp)
      | some SharedH.dead => simp only [hb] at hstep; exact absurd hstep (by simp)
      | some SharedH.empty =>
        simp only [hb] at hstep
        injection hstep with h2
        subst h2
        exact winv_swapS hI ha hb
      | some (SharedH.hold o3 b3) =>
        simp only [hb] at hstep
        injection hstep with h2
        subst h2
        exact winv_swapS hI ha hb
    | some (SharedH.hold o2 b2) =>
      simp only [ha] at hstep
      match hb : w.sh[b]? with
      | none => simp only [hb] at hstep; exact absurd hstep (by simp)
      | some SharedH.dead => simp only [hb] at hstep; exact absurd hstep (by simp)
      | some SharedH.empty =>
        simp only [hb] at hstep
        injection hstep with h2
        subst h2
        exact winv_swapS hI ha hb
      | some (SharedH.hold o3 b3) =>
        simp only [hb] at hstep
        injection hstep with h2
        subst h2
        exact winv_swapS hI ha hb
  | wFromSharedCtor src =>
    simp only [step] at hstep
    match hsrc : w.sh[src]? with
    | none => simp only [hsrc] at hstep; exact absurd hstep (by simp)
    | some SharedH.dead => simp only [hsrc] at hstep; exact absurd hstep (by simp)
    | some SharedH.empty => simp only [hsrc] at hstep; exact absurd hstep (by simp)
    | some (SharedH.hold o2 b) =>
      simp only [hsrc] at hstep
      match hB : w.blks[b]? with
      | none => simp only [hB] at hstep; exact absurd hstep (by simp)
      | some B =>
        simp only [hB] at hstep
        by_cases hAl : B.blkAlive = false
        · rw [if_pos hAl] at hstep
          exact absurd hstep (by simp)
        · rw [if_neg hAl] at hstep
          injection hstep with h2
          subst h2
          rcases hI.shAgree src o2 b hsrc with ⟨B3, hB3, ho3, _⟩
          have hbe : B3 = B := option_inj hB3 hB
          rw [hbe] at ho3
          exact winv_attachW hI hB (by revert hAl; cases B.blkAlive <;> simp) ho3
  | wCopyCtor src =>
    simp only [step] at hstep
    match hsrc : w.wk[src]? with
    | none => simp only [hsrc] at hstep; exact absurd hstep (by simp)
    | some WeakH.dead => simp only [hsrc] at hstep; exact absurd hstep (by simp)
    | some WeakH.empty => simp only [hsrc] at hstep; exact absurd hstep (by simp)
    | some (WeakH.hold p b) =>
      simp only [hsrc] at hstep
      match hB : w.blks[b]? with
      | none => simp only [hB] at hstep; exact absurd hstep (by simp)
      | some B =>
        simp only [hB] at hstep
        by_cases hAl : B.blkAlive = false
        · rw [if_pos hAl] at hstep
          exact absurd hstep (by simp)
        · rw [if_neg hAl] at hstep
          injection hstep with h2
          subst h2
          rcases hI.wkAgree src p b hsrc with ⟨B3, hB3, hp3, _⟩
          have hbe : B3 = B := option_inj hB3 hB
          rw [hbe] at hp3
          exact winv_attachW hI hB (by revert hAl; cases B.blkAlive <;> simp) hp3
  | wMoveCtor src =>
    simp only [step] at hstep
    match hsrc : w.wk[src]? with
    | none => simp only [hsrc] at hstep; exact absurd hstep (by simp)
    | some WeakH.dead => simp only [hsrc] at hstep; exact absurd hstep (by simp)
    | some WeakH.empty =>
      simp only [hsrc] at hstep
      injection hstep with h2
      subst h2
      exact winv_moveW hI hsrc
    | some (WeakH.hold p b) =>
      simp only [hsrc] at hstep
      injection hstep with h2
      subst h2
      exact winv_moveW hI hsrc
  | wDtor hh =>
    simp only [step] at hstep
    match hs : w.wk[hh]? with
    | none => simp only [hs] at hstep; exact absurd hstep (by simp)
    | some s =>
      simp only [hs] at hstep
      match hdel : weakDeleter w.blks s with
      | none => simp only [hdel] at hstep; exact absurd hstep (by simp)
      | some blks1 =>
        simp only [hdel] at hstep
        injection hstep with h2
        subst h2
        exact winv_releaseW hI hs hdel (fun p2 b2 => by simp)
  | wCopyAssign dst src =>
    simp only [step] at hstep
    match hd : w.wk[dst]? with
    | none => simp only [hd] at hstep; exact absurd hstep (by simp)
    | some WeakH.dead => simp only [hd] at hstep; exact absurd hstep (by simp)
    | some WeakH.empty =>
      simp only [hd] at hstep
      match hs : w.wk[src]? with
      | none => simp only [hs] at hstep; exact absurd hstep (by simp)
      | some WeakH.dead => simp only [hs] at hstep; exact absurd hstep (by simp)
      | some WeakH.empty =>
        simp only [hs] at hstep
        by_cases hds : dst = src
        · rw [if_pos hds] at hstep
          injection hstep with h2
          subst h2
          exact hI
        · rw [if_neg hds] at hstep
          simp only [weakDeleter] at hstep
          exact absurd hstep (by simp)
      | some (WeakH.hold p3 b3) =>
        simp only [hs] at hstep
        by_cases hds : dst = src
        · rw [if_pos hds] at hstep
          injection hstep with h2
          subst h2
          exact hI
        · rw [if_neg hds] at hstep
          simp only [weakDeleter] at hstep
          match hB : w.blks[b3]? with
          | none => simp only [hB] at hstep; exact absurd hstep (by simp)
          | some B =>
            simp only [hB] at hstep
            by_cases hAl : B.blkAlive = false
            · rw [if_pos hAl] at hstep
              exact absurd hstep (by simp)
            · rw [if_neg hAl] at hstep
              injection hstep with h2
              subst h2
              rcases hI.wkAgree src p3 b3 hs with ⟨B3, hB3, hp3x, _⟩
              have hbe : B3 = B := option_inj hB3 hB
              rw [hbe] at hp3x
              have hA2 : B.blkAlive = true := by revert hAl; cases B.blkAlive <;> simp
              exact winv_attachSetW hI hd hB hA2 hp3x
    | some (WeakH.hold p2 b) =>
      simp only [hd] at hstep
      match hs : w.wk[src]? with
      | none => simp only [hs] at hstep; exact absurd hstep (by simp)
      | some WeakH.dead => simp only [hs] at hstep; exact absurd hstep (by simp)
      | some WeakH.empty =>
        simp only [hs] at hstep
        by_cases hds : dst = src
        · rw [if_pos hds] at hstep
          injection hstep with h2
          subst h2
          exact hI
        · rw [if_neg hds] at hstep
          match hdel : weakDeleter w.blks (WeakH.hold p2 b) with
          | none => simp only [hdel] at hstep; exact absurd hstep (by simp)
          | some blks1 =>
            simp only [hdel] at hstep
            exact absurd hstep (by simp)
      | some (WeakH.hold p3 b3) =>
        simp only [hs] at hstep
        by_cases hds : dst = src
        · rw [if_pos hds] at hstep
          injection hstep with h2
          subst h2
          exact hI
        · rw [if_neg hds] at hstep
          match hdel : weakDeleter w.blks (WeakH.hold p2 b) with
          | none => simp only [hdel] at hstep; exact absurd hstep (by simp)
          | some blks1 =>
            simp only [hdel] at hstep
            match hB : blks1[b3]? with
            | none => simp only [hB] at hstep; exact absurd hstep (by simp)
            | some B =>
              simp only [hB] at hstep
              by_cases hAl : B.blkAlive = false
              · rw [if_pos hAl] at hstep
                exact absurd hstep (by simp)
              · rw [if_neg hAl] at hstep
                injection hstep with h2
                subst h2
                have hI1 : WInv ⟨blks1, w.sh, w.wk.set dst WeakH.empty⟩ :=
                  winv_releaseW hI hd hdel (fun p4 b4 => by simp)
                have hsrc1 : (w.wk.set dst WeakH.empty)[src]? = some (WeakH.hold p3 b3) :=
                  getElem?_set_other (fun hx => hds hx.symm) _ hs
                rcases hI1.wkAgree src p3 b3 hsrc1 with ⟨B4, hB4, hp4, _⟩
                have hbe4 : B4 = B := option_inj hB4 hB
                rw [hbe4] at hp4
                have hA2 : B.blkAlive = true := by revert hAl; cases B.blkAlive <;> simp
                have hres := winv_attachSetW hI1 (getElem?_set_same hd WeakH.empty) hB hA2 hp4
                rw [List.set_set] at hres
                exact hres
  | wFromSharedAssign dst src =>
    simp only [step] at hstep
    match hd : w.wk[dst]? with
    | none => simp only [hd] at hstep; exact absurd hstep (by simp)
    | some WeakH.dead => simp only [hd] at hstep; exact absurd hstep (by simp)
    | some WeakH.empty =>
      simp only [hd] at hstep
      match hs : w.sh[src]? with
      | none => simp only [hs] at hstep; exact absurd hstep (by simp)
      | some SharedH.dead => simp only [hs] at hstep; exact absurd hstep (by simp)
      | some SharedH.empty =>
        simp only [hs] at hstep
        simp only [weakDeleter] at hstep
        exact absurd hstep (by simp)
      | some (SharedH.hold o3 b3) =>
        simp only [hs] at hstep
        simp only [weakDeleter] at hstep
        match hB : w.blks[b3]? with
        | none => simp only [hB] at hstep; exact absurd hstep (by simp)
        | some B =>
          simp only [hB] at hstep
          by_cases hAl : B.blkAlive = false
          · rw [if_pos hAl] at hstep
            exact absurd hstep (by simp)
          · rw [if_neg hAl] at hstep
            injection hstep with h2
            subst h2
            rcases hI.shAgree src o3 b3 hs with ⟨B3, hB3, ho3, _⟩
            have hbe : B3 = B := option_inj hB3 hB
            rw [hbe] at ho3
            have hA2 : B.blkAlive = true := by revert hAl; cases B.blkAlive <;> simp
            exact winv_attachSetW hI hd hB hA2 ho3
    | some (WeakH.hold p2 b) =>
      simp only [hd] at hstep
      match hs : w.sh[src]? with
      | none => simp only [hs] at hstep; exact absurd hstep (by simp)
      | some SharedH.dead => simp only [hs] at hstep; exact absurd hstep (by simp)
      | some SharedH.empty =>
        simp only [hs] at hstep
        match hdel : weakDeleter w.blks (WeakH.hold p2 b) with
        | none => simp only [hdel] at hstep; exact absurd hstep (by simp)
        | some blks1 =>
          simp only [hdel] at hstep
          exact absurd hstep (by simp)
      | some (SharedH.hold o3 b3) =>
        simp only [hs] at hstep
        match hdel : weakDeleter w.blks (WeakH.hold p2 b) with
        | none => simp only [hdel] at hstep; exact absurd hstep (by simp)
        | some blks1 =>
          simp only [hdel] at hstep
          match hB : blks1[b3]? with
          | none => simp only [hB] at hstep; exact absurd hstep (by simp)
          | some B =>
            simp only [hB] at hstep
            by_cases hAl : B.blkAlive = false
            · rw [if_pos hAl] at hstep
              exact absurd hstep (by simp)
            · rw [if_neg hAl] at hstep
              injection hstep with h2
              subst h2
              have hI1 : WInv ⟨blks1, w.sh, w.wk.set dst WeakH.empty⟩ :=
                winv_releaseW hI hd hdel (fun p4 b4 => by simp)
              rcases hI1.shAgree src o3 b3 hs with ⟨B4, hB4, ho4, _⟩
              have hbe4 : B4 = B := option_inj hB4 hB
              rw [hbe4] at ho4
              have hA2 : B.blkAlive = true := by revert hAl; cases B.blkAlive <;> simp
              have hres := winv_attachSetW hI1 (getElem?_set_same hd WeakH.empty) hB hA2 ho4
              rw [List.set_set] at hres
              exact hres
  | wMoveAssign dst src =>
    simp only [step] at hstep
    match hd : w.wk[dst]? with
    | none => simp only [hd] at hstep; exact absurd hstep (by simp)
    | some WeakH.dead => simp only [hd] at hstep; exact absurd hstep (by simp)
    | some WeakH.empty =>
      simp only [hd] at hstep
      match hs : w.wk[src]? with
      | none => simp only [hs] at hstep; exact absurd hstep (by simp)
      | some WeakH.dead => simp only [hs] at hstep; exact absurd hstep (by simp)
      | some WeakH.empty =>
        simp only [hs] at hstep
        by_cases hds : dst = src
        · rw [if_pos hds] at hstep
          injection hstep with h2
          subst h2
          exact hI
        · rw [if_neg hds] at hstep
          simp only [weakDeleter] at hstep
          injection hstep with h2
          subst h2
          exact winv_transferW hI hd hs hds
      | some (WeakH.hold p3 b3) =>
        simp only [hs] at hstep
        by_cases hds : dst = src
        · rw [if_pos hds] at hstep
          injection hstep with h2
          subst h2
          exact hI
        · rw [if_neg hds] at hstep
          simp only [weakDeleter] at hstep
          injection hstep with h2
          subst h2
          exact winv_transferW hI hd hs hds
    | some (WeakH.hold p2 b) =>
      simp only [hd] at hstep
      match hs : w.wk[src]? with
      | none => simp only [hs] at hstep; exact absurd hstep (by simp)
      | some WeakH.dead => simp only [hs] at hstep; exact absurd hstep (by simp)
      | some WeakH.empty =>
        simp only [hs] at hstep
        by_cases hds : dst = src
        · rw [if_pos hds] at hstep
          injection hstep with h2
          subst h2
          exact hI
        · rw [if_neg hds] at hstep
          match hdel : weakDeleter w.blks (WeakH.hold p2 b) with
          | none => simp only [hdel] at hstep; exact absurd hstep (by simp)
          | some blks1 =>
            simp only [hdel] at hstep
            injection hstep with h2
            subst h2
            have hI1 : WInv ⟨blks1, w.sh, w.wk.set dst WeakH.empty⟩ :=
              winv_releaseW hI hd hdel (fun p4 b4 => by simp)
            have hsrc1 : (w.wk.set dst WeakH.empty)[src]? = some WeakH.empty :=
              getElem?_set_other (fun hx => hds hx.symm) _ hs
            have hres := winv_transferW hI1 (getElem?_set_same hd WeakH.empty) hsrc1 hds
            rw [List.set_set] at hres
            exact hres
      | some (WeakH.hold p3 b3) =>
        simp only [hs] at hstep
        by_cases hds : dst = src
        · rw [if_pos hds] at hstep
          injection hstep with h2
          subst h2
          exact hI
        · rw [if_neg hds] at hstep
          match hdel : weakDeleter w.blks (WeakH.hold p2 b) with
          | none => simp only [hdel] at hstep; exact absurd hstep (by simp)
          | some blks1 =>
            simp only [hdel] at hstep
            injection hstep with h2
            subst h2
            have hI1 : WInv ⟨blks1, w.sh, w.wk.set dst WeakH.empty⟩ :=
              winv_releaseW hI hd hdel (fun p4 b4 => by simp)
            have hsrc1 : (w.wk.set dst WeakH.empty)[src]? = some (WeakH.hold p3 b3) :=
              getElem?_set_other (fun hx => hds hx.symm) _ hs
            have hres := winv_transferW hI1 (getElem?_set_same hd WeakH.empty) hsrc1 hds
            rw [List.set_set] at hres
            exact hres
  | wReset hh =>
    simp only [step] at hstep
    match hs : w.wk[hh]? with
    | none => simp only [hs] at hstep; exact absurd hstep (by simp)
    | some s =>
      simp only [hs] at hstep
      match hdel : weakDeleter w.blks s with
      | none => simp only [hdel] at hstep; exact absurd hstep (by simp)
      | some blks1 =>
        simp only [hdel] at hstep
        injection hstep with h2
        subst h2
        exact winv_releaseW hI hs hdel (fun p2 b2 => by simp)
  | wSwap a b =>
    simp only [step] at hstep
    match ha : w.wk[a]? with
    | none => simp only [ha] at hstep; exact absurd hstep (by simp)
    | some WeakH.dead => simp only [ha] at hstep; exact absurd hstep (by simp)
    | some WeakH.empty =>
      simp only [ha] at hstep
      match hb : w.wk[b]? with
      | none => simp only [hb] at hstep; exact absurd hstep (by simp)
      | some WeakH.dead => simp only [hb] at hstep; exact absurd hstep (by simp)
      | some WeakH.empty =>
        simp only [hb] at hstep
        injection hstep with h2
        subst h2
        exact winv_swapW hI ha hb
      | some (WeakH.hold p3 b3) =>
        simp only [hb] at hstep
        injection hstep with h2
        subst h2
        exact winv_swapW hI ha hb
    | some (WeakH.hold p2 b2) =>
      simp only [ha] at hstep
      match hb : w.wk[b]? with
      | none => simp only [hb] at hstep; exact absurd hstep (by simp)
      | some WeakH.dead => simp only [hb] at hstep; exact absurd hstep (by simp)
      | some WeakH.empty =>
        simp only [hb] at hstep
        injection hstep with h2
        subst h2
        exact winv_swapW hI ha hb
      | some (WeakH.hold p3 b3) =>
        simp only [hb] at hstep
        injection hstep with h2
        subst h2
        exact winv_swapW hI ha hb
  | wLock src =>
    simp only [step] at hstep
    match hsrc : w.wk[src]? with
    | none => simp only [hsrc] at hstep; exact absurd hstep (by simp)
    | some WeakH.dead => simp only [hsrc] at hstep; exact absurd hstep (by simp)
    | some WeakH.empty =>
      simp only [hsrc] at hstep
      injection hstep with h2
      subst h2
      exact winv_appendEmptyS hI
    | some (WeakH.hold p b) =>
      simp only [hsrc] at hstep
      match hB : w.blks[b]? with
      | none => simp only [hB] at hstep; exact absurd hstep (by simp)
      | some B =>
        simp only [hB] at hstep
        by_cases hAl : B.blkAlive = false
        · rw [if_pos hAl] at hstep
          exact absurd hstep (by simp)
        · rw [if_neg hAl] at hstep
          by_cases hc : B.count = 0
          · rw [if_pos hc] at hstep
            injection hstep with h2
            subst h2
            exact winv_appendEmptyS hI
          · rw [if_neg hc] at hstep
            injection hstep with h2
            subst h2
            rcases hI.wkAgree src p b hsrc with ⟨B3, hB3, hp3, _⟩
            have hbe : B3 = B := option_inj hB3 hB
            rw [hbe] at hp3
            exact winv_attachS hI hB (by revert hAl; cases B.blkAlive <;> simp) hp3

theorem SAlive_set_addWeak {blks : List ReferenceCounter} (hS : SAlive blks) {b : Nat}
    {B : ReferenceCounter} (hB : blks[b]? = some B) : SAlive (blks.set b B.addWeak) := by
  intro b2 B2 h2 hobj
  rcases blks_set_cases h2 with ⟨hbe, hBe⟩ | ⟨hne, hold⟩
  · subst hBe
    rw [ReferenceCounter.addWeak_hasObj] at hobj
    rw [ReferenceCounter.addWeak_objAlive, ReferenceCounter.addWeak_count]
    exact hS b B hB hobj
  · exact hS b2 B2 hold hobj

theorem SAlive_sharedDeleter {blks blks1 : List ReferenceCounter} {s : SharedH}
    (hS : SAlive blks) (hdel : sharedDeleter blks s = some blks1) : SAlive blks1 := by
  rcases sharedDeleter_cases hdel with ⟨hb1, _⟩ | ⟨b0, B0, _, hB0, _, hgate, hb1⟩
  · subst hb1
    exact hS
  · subst hb1
    exact SAlive_set_sde hS hB0 hgate

theorem SAlive_weakDeleter {blks blks1 : List ReferenceCounter} {s : WeakH}
    (hS : SAlive blks) (hdel : weakDeleter blks s = some blks1) : SAlive blks1 := by
  rcases weakDeleter_cases hdel with ⟨hb1, _⟩ | ⟨p0, b0, B0, _, hB0, _, _, hb1⟩
  · subst hb1
    exact hS
  · subst hb1
    exact SAlive_set_wde hS hB0

theorem holder_count_pos {w : World} (hI : WInv w) {i b : Nat} {o2 : Bool}
    {B : ReferenceCounter} (hs : w.sh[i]? = some (SharedH.hold o2 b))
    (hB : w.blks[b]? = some B) : 1 ≤ B.count := by
  cases hof : B.hasObj with
  | false => exact (hI.noObjInv b B hB hof).1
  | true =>
    have hse : B.count = cntS w.sh b := hI.strongEq b B hB hof
    have hp : 1 ≤ cntS w.sh b := cntS_pos hs (by simp)
    omega

theorem salive_step {w w2 : World} {o : Op} (hI : WInv w) (hS : SAlive w.blks)
    (hsafe : SafeOp o = true) (hstep : step w o = some w2) : SAlive w2.blks := by
  cases o with
  | sNewRaw ho =>
    simp only [step] at hstep
    injection hstep with h2
    subst h2
    exact SAlive_concat hS ho
  | sCopyCtor src =>
    simp only [step] at hstep
    match hsrc : w.sh[src]? with
    | none => simp only [hsrc] at hstep; exact absurd hstep (by simp)
    | some SharedH.dead => simp only [hsrc] at hstep; exact absurd hstep (by simp)
    | some SharedH.empty =>
      simp only [hsrc] at hstep
      injection hstep with h2
      subst h2
      exact hS
    | some (SharedH.hold o2 b) =>
      simp only [hsrc] at hstep
      match hB : w.blks[b]? with
      | none => simp only [hB] at hstep; exact absurd hstep (by simp)
      | some B =>
        simp only [hB] at hstep
        by_cases hAl : B.blkAlive = false
        · rw [if_pos hAl] at hstep
          exact absurd hstep (by simp)
        · rw [if_neg hAl] at hstep
          injection hstep with h2
          subst h2
          exact SAlive_set_add hS hB (holder_count_pos hI hsrc hB)
  | sMoveCtor src =>
    simp only [step] at hstep
    match hsrc : w.sh[src]? with
    | none => simp only [hsrc] at hstep; exact absurd hstep (by simp)
    | some SharedH.dead => simp only [hsrc] at hstep; exact absurd hstep (by simp)
    | some SharedH.empty =>
      simp only [hsrc] at hstep
      injection hstep with h2
      subst h2
      exact hS
    | some (SharedH.hold o2 b) =>
      simp only [hsrc] at hstep
      injection hstep with h2
      subst h2
      exact hS
  | sFromWeakCtor src => simp [SafeOp] at hsafe
  | sDtor hh =>
    simp only [step] at hstep
    match hs : w.sh[hh]? with
    | none => simp only [hs] at hstep; exact absurd hstep (by simp)
    | some s =>
      simp only [hs] at hstep
      match hdel : sharedDeleter w.blks s with
      | none => simp only [hdel] at hstep; exact absurd hstep (by simp)
      | some blks1 =>
        simp only [hdel] at hstep
        injection hstep with h2
        subst h2
        exact SAlive_sharedDeleter hS hdel
  | sCopyAssign dst src =>
    simp only [step] at hstep
    match hd : w.sh[dst]? with
    | none => simp only [hd] at hstep; exact absurd hstep (by simp)
    | some SharedH.dead => simp only [hd] at hstep; exact absurd hstep (by simp)
    | some SharedH.empty =>
      simp only [hd] at hstep
      match hs : w.sh[src]? with
      | none => simp only [hs] at hstep; exact absurd hstep (by simp)
      | some SharedH.dead => simp only [hs] at hstep; exact absurd hstep (by simp)
      | some SharedH.empty =>
        simp only [hs] at hstep
        by_cases hds : dst = src
        · rw [if_pos hds] at hstep
          injection hstep with h2
          subst h2
          exact hS
        · rw [if_neg hds] at hstep
          simp only [sharedDeleter] at hstep
          exact absurd hstep (by simp)
      | some (SharedH.hold o2 b) =>
        simp only [hs] at hstep
        by_cases hds : dst = src
        · rw [if_pos hds] at hstep
          injection hstep with h2
          subst h2
          exact hS
        · rw [if_neg hds] at hstep
          simp only [sharedDeleter] at hstep
          match hB : w.blks[b]? with
          | none => simp only [hB] at hstep; exact absurd hstep (by simp)
          | some B =>
            simp only [hB] at hstep
            by_cases hAl : B.blkAlive = false
            · rw [if_pos hAl] at hstep
              exact absurd hstep (by simp)
            · rw [if_neg hAl] at hstep
              injection hstep with h2
              subst h2
              exact SAlive_set_add hS hB (holder_count_pos hI hs hB)
    | some (SharedH.hold o2 b) =>
      simp only [hd] at hstep
      match hs : w.sh[src]? with
      | none => simp only [hs] at hstep; exact absurd hstep (by simp)
      | some SharedH.dead => simp only [hs] at hstep; exact absurd hstep (by simp)
      | some SharedH.empty =>
        simp only [hs] at hstep
        by_cases hds : dst = src
        · rw [if_pos hds] at hstep
          injection hstep with h2
          subst h2
          exact hS
        · rw [if_neg hds] at hstep
          match hdel : sharedDeleter w.blks (SharedH.hold o2 b) with
          | none => simp only [hdel] at hstep; exact absurd hstep (by simp)
          | some blks1 =>
            simp only [hdel] at hstep
            exact absurd hstep (by simp)
      | some (SharedH.hold o3 b3) =>
        simp only [hs] at hstep
        by_cases hds : dst = src
        · rw [if_pos hds] at hstep
          injection hstep with h2
          subst h2
          exact hS
        · rw [if_neg hds] at hstep
          match hdel : sharedDeleter w.blks (SharedH.hold o2 b) with
          | none => simp only [hdel] at hstep; exact absurd hstep (by simp)
          | some blks1 =>
            simp only [hdel] at hstep
            match hB : blks1[b3]? with
            | none => simp only [hB] at hstep; exact absurd hstep (by simp)
            | some B =>
              simp only [hB] at hstep
              by_cases hAl : B.blkAlive = false
              · rw [if_pos hAl] at hstep
                exact absurd hstep (by simp)
              · rw [if_neg hAl] at hstep
                injection hstep with h2
                subst h2
                have hI1 : WInv ⟨blks1, w.sh.set dst SharedH.empty, w.wk⟩ :=
                  winv_releaseS hI hd hdel (fun o4 b4 => by simp)
                have hsrc1 : (w.sh.set dst SharedH.empty)[src]? = some (SharedH.hold o3 b3) :=
                  getElem?_set_other (fun hx => hds hx.symm) _ hs
                exact SAlive_set_add (SAlive_sharedDeleter hS hdel) hB
                  (holder_count_pos hI1 hsrc1 hB)
  | sMoveAssign dst src =>
    simp only [step] at hstep
    match hd : w.sh[dst]? with
    | none => simp only [hd] at hstep; exact absurd hstep (by simp)
    | some SharedH.dead => simp only [hd] at hstep; exact absurd hstep (by simp)
    | some SharedH.empty =>
      simp only [hd] at hstep
      match hs : w.sh[src]? with
      | none => simp only [hs] at hstep; exact absurd hstep (by simp)
      | some SharedH.dead => simp only [hs] at hstep; exact absurd hstep (by simp)
      | some SharedH.empty =>
        simp only [hs] at hstep
        by_cases hds : dst = src
        · rw [if_pos hds] at hstep
          injection hstep with h2
          subst h2
          exact hS
        · rw [if_neg hds] at hstep
          simp only [sharedDeleter] at hstep
          injection hstep with h2
          subst h2
          exact hS
      | some (SharedH.hold o3 b3) =>
        simp only [hs] at hstep
        by_cases hds : dst = src
        · rw [if_pos hds] at hstep
          injection hstep with h2
          subst h2
          exact hS
        · rw [if_neg hds] at hstep
          simp only [sharedDeleter] at hstep
          injection hstep with h2
          subst h2
          exact hS
    | some (SharedH.hold o2 b) =>
      simp only [hd] at hstep
      match hs : w.sh[src]? with
      | none => simp only [hs] at hstep; exact absurd hstep (by simp)
      | some SharedH.dead => simp only [hs] at hstep; exact absurd hstep (by simp)
      | some SharedH.empty =>
        simp only [hs] at hstep
        by_cases hds : dst = src
        · rw [if_pos hds] at hstep
          injection hstep with h2
          subst h2
          exact hS
        · rw [if_neg hds] at hstep
          match hdel : sharedDeleter w.blks (SharedH.hold o2 b) with
          | none => simp only [hdel] at hstep; exact absurd hstep (by simp)
          | some blks1 =>
            simp only [hdel] at hstep
            injection hstep with h2
            subst h2
            exact SAlive_sharedDeleter hS hdel
      | some (SharedH.hold o3 b3) =>
        simp only [hs] at hstep
        by_cases hds : dst = src
        · rw [if_pos hds] at hstep
          injection hstep with h2
          subst h2
          exact hS
        · rw [if_neg hds] at hstep
          match hdel : sharedDeleter w.blks (SharedH.hold o2 b) with
          | none => simp only [hdel] at hstep; exact absurd hstep (by simp)
          | some blks1 =>
            simp only [hdel] at hstep
            injection hstep with h2
            subst h2
            exact SAlive_sharedDeleter hS hdel
  | sReset hh =>
    simp only [step] at hstep
    match hs : w.sh[hh]? with
    | none => simp only [hs] at hstep; exact absurd hstep (by simp)
    | some s =>
      simp only [hs] at hstep
      match hdel : sharedDeleter w.blks s with
      | none => simp only [hdel] at hstep; exact absurd hstep (by simp)
      | some blks1 =>
        simp only [hdel] at hstep
        injection hstep with h2
        subst h2
        exact SAlive_sharedDeleter hS hdel
  | sResetPtr hh =>
    simp only [step] at hstep
    match hs : w.sh[hh]? with
    | none => simp only [hs] at hstep; exact absurd hstep (by simp)
    | some s =>
      simp only [hs] at hstep
      match hdel : sharedDeleter w.blks s with
      | none => simp only [hdel] at hstep; exact absurd hstep (by simp)
      | some blks1 =>
        simp only [hdel] at hstep
        injection hstep with h2
        subst h2
        exact SAlive_concat (SAlive_sharedDeleter hS hdel) true
  | sSwap a b =>
    simp only [step] at hstep
    match ha : w.sh[a]? with
    | none => simp only [ha] at hstep; exact absurd hstep (by simp)
    | some SharedH.dead => simp only [ha] at hstep; exact absurd hstep (by simp)
    | some SharedH.empty =>
      simp only [ha] at hstep
      match hb : w.sh[b]? with
      | none => simp only [hb] at hstep; exact absurd hstep (by simp)
      | some SharedH.dead => simp only [hb] at hstep; exact absurd hstep (by simp)
      | some SharedH.empty =>
        simp only [hb] at hstep
        injection hstep with h2
        subst h2
        exact hS
      | some (SharedH.hold o3 b3) =>
        simp only [hb] at hstep
        injection hstep with h2
        subst h2
        exact hS
    | some (SharedH.hold o2 b2) =>
      simp only [ha] at hstep
      match hb : w.sh[b]? with
      | none => simp only [hb] at hstep; exact absurd hstep (by simp)
      | some SharedH.dead => simp only [hb] at hstep; exact absurd hstep (by simp)
      | some SharedH.empty =>
        simp only [hb] at hstep
        injection hstep with h2
        subst h2
        exact hS
      | some (SharedH.hold o3 b3) =>
        simp only [hb] at hstep
        injection hstep with h2
        subst h2
        exact hS
  | wFromSharedCtor src =>
    simp only [step] at hstep
    match hsrc : w.sh[src]? with
    | none => simp only [hsrc] at hstep; exact absurd hstep (by simp)
    | some SharedH.dead => simp only [hsrc] at hstep; exact absurd hstep (by simp)
    | some SharedH.empty => simp only [hsrc] at hstep; exact absurd hstep (by simp)
    | some (SharedH.hold o2 b) =>
      simp only [hsrc] at hstep
      match hB : w.blks[b]? with
      | none => simp only [hB] at hstep; exact absurd hstep (by simp)
      | some B =>
        simp only [hB] at hstep
        by_cases hAl : B.blkAlive = false
        · rw [if_pos hAl] at hstep
          exact absurd hstep (by simp)
        · rw [if_neg hAl] at hstep
          injection hstep with h2
          subst h2
          exact SAlive_set_addWeak hS hB
  | wCopyCtor src =>
    simp only [step] at hstep
    match hsrc : w.wk[src]? with
    | none => simp only [hsrc] at hstep; exact absurd hstep (by simp)
    | some WeakH.dead => simp only [hsrc] at hstep; exact absurd hstep (by simp)
    | some WeakH.empty => simp only [hsrc] at hstep; exact absurd hstep (by simp)
    | some (WeakH.hold p b) =>
      simp only [hsrc] at hstep
      match hB : w.blks[b]? with
      | none => simp only [hB] at hstep; exact absurd hstep (by simp)
      | some B =>
        simp only [hB] at hstep
        by_cases hAl : B.blkAlive = false
        · rw [if_pos hAl] at hstep
          exact absurd hstep (by simp)
        · rw [if_neg hAl] at hstep
          injection hstep with h2
          subst h2
          exact SAlive_set_addWeak hS hB
  | wMoveCtor src =>
    simp only [step] at hstep
    match hsrc : w.wk[src]? with
    | none => simp only [hsrc] at hstep; exact absurd hstep (by simp)
    | some WeakH.dead => simp only [hsrc] at hstep; exact absurd hstep (by simp)
    | some WeakH.empty =>
      simp only [hsrc] at hstep
      injection hstep with h2
      subst h2
      exact hS
    | some (WeakH.hold p b) =>
      simp only [hsrc] at hstep
      injection hstep with h2
      subst h2
      exact hS
  | wDtor hh =>
    simp only [step] at hstep
    match hs : w.wk[hh]? with
    | none => simp only [hs] at hstep; exact absurd hstep (by simp)
    | some s =>
      simp only [hs] at hstep
      match hdel : weakDeleter w.blks s with
      | none => simp only [hdel] at hstep; exact absurd hstep (by simp)
      | some blks1 =>
        simp only [hdel] at hstep
        injection hstep with h2
        subst h2
        exact SAlive_weakDeleter hS hdel
  | wCopyAssign dst src =>
    simp only [step] at hstep
    match hd : w.wk[dst]? with
    | none => simp only [hd] at hstep; exact absurd hstep (by simp)
    | some WeakH.dead => simp only [hd] at hstep; exact absurd hstep (by simp)
    | some WeakH.empty =>
      simp only [hd] at hstep
      match hs : w.wk[src]? with
      | none => simp only [hs] at hstep; exact absurd hstep (by simp)
      | some WeakH.dead => simp only [hs] at hstep; exact absurd hstep (by simp)
      | some WeakH.empty =>
        simp only [hs] at hstep
        by_cases hds : dst = src
        · rw [if_pos hds] at hstep
          injection hstep with h2
          subst h2
          exact hS
        · rw [if_neg hds] at hstep
          simp only [weakDeleter] at hstep
          exact absurd hstep (by simp)
      | some (WeakH.hold p3 b3) =>
        simp only [hs] at hstep
        by_cases hds : dst = src
        · rw [if_pos hds] at hstep
          injection hstep with h2
          subst h2
          exact hS
        · rw [if_neg hds] at hstep
          simp only [weakDeleter] at hstep
          match hB : w.blks[b3]? with
          | none => simp only [hB] at hstep; exact absurd hstep (by simp)
          | some B =>
            simp only [hB] at hstep
            by_cases hAl : B.blkAlive = false
            · rw [if_pos hAl] at hstep
              exact absurd hstep (by simp)
            · rw [if_neg hAl] at hstep
              injection hstep with h2
              subst h2
              exact SAlive_set_addWeak hS hB
    | some (WeakH.hold p2 b) =>
      simp only [hd] at hstep
      match hs : w.wk[src]? with
      | none => simp only [hs] at hstep; exact absurd hstep (by simp)
      | some WeakH.dead => simp only [hs] at hstep; exact absurd hstep (by simp)
      | some WeakH.empty =>
        simp only [hs] at hstep
        by_cases hds : dst = src
        · rw [if_pos hds] at hstep
          injection hstep with h2
          subst h2
          exact hS
        · rw [if_neg hds] at hstep
          match hdel : weakDeleter w.blks (WeakH.hold p2 b) with
          | none => simp only [hdel] at hstep; exact absurd hstep (by simp)
          | some blks1 =>
            simp only [hdel] at hstep
            exact absurd hstep (by simp)
      | some (WeakH.hold p3 b3) =>
        simp only [hs] at hstep
        by_cases hds : dst = src
        · rw [if_pos hds] at hstep
          injection hstep with h2
          subst h2
          exact hS
        · rw [if_neg hds] at hstep
          match hdel : weakDeleter w.blks (WeakH.hold p2 b) with
          | none => simp only [hdel] at hstep; exact absurd hstep (by simp)
          | some blks1 =>
            simp only [hdel] at hstep
            match hB : blks1[b3]? with
            | none => simp only [hB] at hstep; exact absurd hstep (by simp)
            | some B =>
              simp only [hB] at hstep
              by_cases hAl : B.blkAlive = false
              · rw [if_pos hAl] at hstep
                exact absurd hstep (by simp)
              · rw [if_neg hAl] at hstep
                injection hstep with h2
                subst h2
                exact SAlive_set_addWeak (SAlive_weakDeleter hS hdel) hB
  | wFromSharedAssign dst src =>
    simp only [step] at hstep
    match hd : w.wk[dst]? with
    | none => simp only [hd] at hstep; exact absurd hstep (by simp)
    | some WeakH.dead => simp only [hd] at hstep; exact absurd hstep (by simp)
    | some WeakH.empty =>
      simp only [hd] at hstep
      match hs : w.sh[src]? with
      | none => simp only [hs] at hstep; exact absurd hstep (by simp)
      | some SharedH.dead => simp only [hs] at hstep; exact absurd hstep (by simp)
      | some SharedH.empty =>
        simp only [hs] at hstep
        simp only [weakDeleter] at hstep
        exact absurd hstep (by simp)
      | some (SharedH.hold o3 b3) =>
        simp only [hs] at hstep
        simp only [weakDeleter] at hstep
        match hB : w.blks[b3]? with
        | none => simp only [hB] at hstep; exact absurd hstep (by simp)
        | some B =>
          simp only [hB] at hstep
          by_cases hAl : B.blkAlive = false
          · rw [if_pos hAl] at hstep
            exact absurd hstep (by simp)
          · rw [if_neg hAl] at hstep
            injection hstep with h2
            subst h2
            exact SAlive_set_addWeak hS hB
    | some (WeakH.hold p2 b) =>
      simp only [hd] at hstep
      match hs : w.sh[src]? with
      | none => simp only [hs] at hstep; exact absurd hstep (by simp)
      | some SharedH.dead => simp only [hs] at hstep; exact absurd hstep (by simp)
      | some SharedH.empty =>
        simp only [hs] at hstep
        match hdel : weakDeleter w.blks (WeakH.hold p2 b) with
        | none => simp only [hdel] at hstep; exact absurd hstep (by simp)
        | some blks1 =>
          simp only [hdel] at hstep
          exact absurd hstep (by simp)
      | some (SharedH.hold o3 b3) =>
        simp only [hs] at hstep
        match hdel : weakDeleter w.blks (WeakH.hold p2 b) with
        | none => simp only [hdel] at hstep; exact absurd hstep (by simp)
        | some blks1 =>
          simp only [hdel] at hstep
          match hB : blks1[b3]? with
          | none => simp only [hB] at hstep; exact absurd hstep (by simp)
          | some B =>
            simp only [hB] at hstep
            by_cases hAl : B.blkAlive = false
            · rw [if_pos hAl] at hstep
              exact absurd hstep (by simp)
            · rw [if_neg hAl] at hstep
              injection hstep with h2
              subst h2
              exact SAlive_set_addWeak (SAlive_weakDeleter hS hdel) hB
  | wMoveAssign dst src =>
    simp only [step] at hstep
    match hd : w.wk[dst]? with
    | none => simp only [hd] at hstep; exact absurd hstep (by simp)
    | some WeakH.dead => simp only [hd] at hstep; exact absurd hstep (by simp)
    | some WeakH.empty =>
      simp only [hd] at hstep
      match hs : w.wk[src]? with
      | none => simp only [hs] at hstep; exact absurd hstep (by simp)
      | some WeakH.dead => simp only [hs] at hstep; exact absurd hstep (by simp)
      | some WeakH.empty =>
        simp only [hs] at hstep
        by_cases hds : dst = src
        · rw [if_pos hds] at hstep
          injection hstep with h2
          subst h2
          exact hS
        · rw [if_neg hds] at hstep
          simp only [weakDeleter] at hstep
          injection hstep with h2
          subst h2
          exact hS
      | some (WeakH.hold p3 b3) =>
        simp only [hs] at hstep
        by_cases hds : dst = src
        · rw [if_pos hds] at hstep
          injection hstep with h2
          subst h2
          exact hS
        · rw [if_neg hds] at hstep
          simp only [weakDeleter] at hstep
          injection hstep with h2
          subst h2
          exact hS
    | some (WeakH.hold p2 b) =>
      simp only [hd] at hstep
      match hs : w.wk[src]? with
      | none => simp only [hs] at hstep; exact absurd hstep (by simp)
      | some WeakH.dead => simp only [hs] at hstep; exact absurd hstep (by simp)
      | some WeakH.empty =>
        simp only [hs] at hstep
        by_cases hds : dst = src
        · rw [if_pos hds] at hstep
          injection hstep with h2
          subst h2
          exact hS
        · rw [if_neg hds] at hstep
          match hdel : weakDeleter w.blks (WeakH.hold p2 b) with
          | none => simp only [hdel] at hstep; exact absurd hstep (by simp)
          | some blks1 =>
            simp only [hdel] at hstep
            injection hstep with h2
            subst h2
            exact SAlive_weakDeleter hS hdel
      | some (WeakH.hold p3 b3) =>
        simp only [hs] at hstep
        by_cases hds : dst = src
        · rw [if_pos hds] at hstep
          injection hstep with h2
          subst h2
          exact hS
        · rw [if_neg hds] at hstep
          match hdel : weakDeleter w.blks (WeakH.hold p2 b) with
          | none => simp only [hdel] at hstep; exact absurd hstep (by simp)
          | some blks1 =>
            simp only [hdel] at hstep
            injection hstep with h2
            subst h2
            exact SAlive_weakDeleter hS hdel
  | wReset hh =>
    simp only [step] at hstep
    match hs : w.wk[hh]? with
    | none => simp only [hs] at hstep; exact absurd hstep (by simp)
    | some s =>
      simp only [hs] at hstep
      match hdel : weakDeleter w.blks s with
      | none => simp only [hdel] at hstep; exact absurd hstep (by simp)
      | some blks1 =>
        simp only [hdel] at hstep
        injection hstep with h2
        subst h2
        exact SAlive_weakDeleter hS hdel
  | wSwap a b =>
    simp only [step] at hstep
    match ha : w.wk[a]? with
    | none => simp only [ha] at hstep; exact absurd hstep (by simp)
    | some WeakH.dead => simp only [ha] at hstep; exact absurd hstep (by simp)
    | some WeakH.empty =>
      simp only [ha] at hstep
      match hb : w.wk[b]? with
      | none => simp only [hb] at hstep; exact absurd hstep (by simp)
      | some WeakH.dead => simp only [hb] at hstep; exact absurd hstep (by simp)
      | some WeakH.empty =>
        simp only [hb] at hstep
        injection hstep with h2
        subst h2
        exact hS
      | some (WeakH.hold p3 b3) =>
        simp only [hb] at hstep
        injection hstep with h2
        subst h2
        exact hS
    | some (WeakH.hold p2 b2) =>
      simp only [ha] at hstep
      match hb : w.wk[b]? with
      | none => simp only [hb] at hstep; exact absurd hstep (by simp)
      | some WeakH.dead => simp only [hb] at hstep; exact absurd hstep (by simp)
      | some WeakH.empty =>
        simp only [hb] at hstep
        injection hstep with h2
        subst h2
        exact hS
      | some (WeakH.hold p3 b3) =>
        simp only [hb] at hstep
        injection hstep with h2
        subst h2
        exact hS
  | wLock src =>
    simp only [step] at hstep
    match hsrc : w.wk[src]? with
    | none => simp only [hsrc] at hstep; exact absurd hstep (by simp)
    | some WeakH.dead => simp only [hsrc] at hstep; exact absurd hstep (by simp)
    | some WeakH.empty =>
      simp only [hsrc] at hstep
      injection hstep with h2
      subst h2
      exact hS
    | some (WeakH.hold p b) =>
      simp only [hsrc] at hstep
      match hB : w.blks[b]? with
      | none => simp only [hB] at hstep; exact absurd hstep (by simp)
      | some B =>
        simp only [hB] at hstep
        by_cases hAl : B.blkAlive = false
        · rw [if_pos hAl] at hstep
          exact absurd hstep (by simp)
        · rw [if_neg hAl] at hstep
          by_cases hc : B.count = 0
          · rw [if_pos hc] at hstep
            injection hstep with h2
            subst h2
            exact hS
          · rw [if_neg hc] at hstep
            injection hstep with h2
            subst h2
            exact SAlive_set_add hS hB (by omega)

theorem winvS_step {w w2 : World} {o : Op} (hI : WInvS w) (hsafe : SafeOp o = true)
    (hstep : step w o = some w2) : WInvS w2 :=
  ⟨winv_step hI.toWInv hstep, salive_step hI.toWInv hI.strongAlive hsafe hstep⟩

theorem winv_run {w w2 : World} {ops : List Op} (hI : WInv w) (hrun : run w ops = some w2) :
    WInv w2 := by
  induction ops generalizing w with
  | nil =>
    rw [run] at hrun
    injection hrun with h2
    subst h2
    exact hI
  | cons o ops ih =>
    rw [run] at hrun
    match hst : step w o with
    | none => simp only [hst] at hrun; exact absurd hrun (by simp)
    | some w1 =>
      simp only [hst] at hrun
      exact ih (winv_step hI hst) hrun

theorem winvS_run {w w2 : World} {ops : List Op} (hI : WInvS w)
    (hsafe : ∀ o ∈ ops, SafeOp o = true) (hrun : run w ops = some w2) : WInvS w2 := by
  induction ops generalizing w with
  | nil =>
    rw [run] at hrun
    injection hrun with h2
    subst h2
    exact hI
  | cons o ops ih =>
    rw [run] at hrun
    match hst : step w o with
    | none => simp only [hst] at hrun; exact absurd hrun (by simp)
    | some w1 =>
      simp only [hst] at hrun
      exact ih (winvS_step hI (hsafe o (by simp)) hst)
        (fun o2 ho2 => hsafe o2 (by simp [ho2])) hrun

theorem winv_empty : WInv World.empty := by
  constructor
  · intro i o b hi
    simp [World.empty] at hi
  · intro i p b hi
    simp [World.empty] at hi
  · intro b B hB
    simp [World.empty] at hB
  · intro b B hB
    simp [World.empty] at hB
  · intro b B hB
    simp [World.empty] at hB
  · intro b B hB
    simp [World.empty] at hB
  · intro b B hB
    simp [World.empty] at hB

theorem winv_reach {w : World} (hR : Reach w) : WInv w := by
  rcases hR with ⟨ops, hrun⟩
  exact winv_run winv_empty hrun

theorem winv_init1 : WInv init1 := by
  constructor
  · intro i o b hi
    match i with
    | 0 =>
      have h0 : init1.sh[0]? = some (SharedH.hold true 0) := rfl
      have hinj := option_inj h0 hi
      injection hinj with h1 h2
      exact ⟨freshBlock true, by rw [← h2]; rfl, by rw [← h1]; rfl, rfl⟩
    | n + 1 => simp [init1] at hi
  · intro i p b hi
    simp [init1] at hi
  · intro b B hB hobj
    match b with
    | 0 =>
      have h0 : init1.blks[0]? = some (freshBlock true) := rfl
      have hinj := option_inj h0 hB
      rw [← hinj]
      rfl
    | n + 1 => simp [init1] at hB
  · intro b B hB hobj
    match b with
    | 0 =>
      have h0 : init1.blks[0]? = some (freshBlock true) := rfl
      have hinj := option_inj h0 hB
      rw [← hinj] at hobj
      exact absurd hobj (by simp [freshBlock])
    | n + 1 => simp [init1] at hB
  · intro b B hB
    match b with
    | 0 =>
      have h0 : init1.blks[0]? = some (freshBlock true) := rfl
      have hinj := option_inj h0 hB
      rw [← hinj]
      show cntW init1.wk 0 ≤ (freshBlock true).weak
      rfl
    | n + 1 => simp [init1] at hB
  · intro b B hB hobj
    match b with
    | 0 =>
      have h0 : init1.blks[0]? = some (freshBlock true) := rfl
      have hinj := option_inj h0 hB
      rw [← hinj]
      rfl
    | n + 1 => simp [init1] at hB
  · intro b B hB
    match b with
    | 0 =>
      have h0 : init1.blks[0]? = some (freshBlock true) := rfl
      have hinj := option_inj h0 hB
      rw [← hinj]
      rfl
    | n + 1 => simp [init1] at hB

theorem winvS_init1 : WInvS init1 := by
  refine ⟨winv_init1, ?_⟩
  intro b B hB hobj
  match b with
  | 0 =>
    have h0 : init1.blks[0]? = some (freshBlock true) := rfl
    have hinj := option_inj h0 hB
    rw [← hinj]
    simp [freshBlock]
  | n + 1 => simp [init1] at hB

theorem blkPersist_refl (blks : List ReferenceCounter) : BlkPersist blks blks :=
  fun _ B hB => ⟨B, hB, rfl⟩

theorem blkPersist_comp {blks blks1 blks2 : List ReferenceCounter}
    (h1 : BlkPersist blks blks1) (h2 : BlkPersist blks1 blks2) : BlkPersist blks blks2 := by
  intro b B hB
  rcases h1 b B hB with ⟨B1, hB1, e1⟩
  rcases h2 b B1 hB1 with ⟨B2, hB2, e2⟩
  exact ⟨B2, hB2, by rw [e2, e1]⟩

theorem blkPersist_set {blks : List ReferenceCounter} {j : Nat} {Bj X : ReferenceCounter}
    (hj : blks[j]? = some Bj) (hX : X.hasObj = Bj.hasObj) :
    BlkPersist blks (blks.set j X) := by
  intro b B hB
  by_cases hjb : j = b
  · subst hjb
    have hbe : Bj = B := option_inj hj hB
    exact ⟨X, getElem?_set_same hB X, by rw [hX, hbe]⟩
  · exact ⟨B, getElem?_set_other (fun h => hjb h.symm) X hB, rfl⟩

theorem blkPersist_concat (blks : List ReferenceCounter) (X : ReferenceCounter) :
    BlkPersist blks (blks ++ [X]) :=
  fun _ B hB => ⟨B, getElem?_concat_of_mem hB, rfl⟩

theorem blkPersist_sharedDeleter {blks blks1 : List ReferenceCounter} {s : SharedH}
    (hdel : sharedDeleter blks s = some blks1) : BlkPersist blks blks1 := by
  rcases sharedDeleter_cases hdel with ⟨hb1, _⟩ | ⟨b0, B0, _, hB0, _, _, hb1⟩
  · subst hb1
    exact blkPersist_refl _
  · subst hb1
    exact blkPersist_set hB0 (sharedDeleterEffect_hasObj B0)

theorem blkPersist_weakDeleter {blks blks1 : List ReferenceCounter} {s : WeakH}
    (hdel : weakDeleter blks s = some blks1) : BlkPersist blks blks1 := by
  rcases weakDeleter_cases hdel with ⟨hb1, _⟩ | ⟨p0, b0, B0, _, hB0, _, _, hb1⟩
  · subst hb1
    exact blkPersist_refl _
  · subst hb1
    exact blkPersist_set hB0 (weakDeleterEffect_hasObj B0)

theorem step_blkPersist {w w2 : World} {o : Op} (hstep : step w o = some w2) :
    BlkPersist w.blks w2.blks := by
  cases o <;> simp only [step] at hstep <;> (repeat' split at hstep) <;>
    first
      | exact Option.noConfusion hstep
      | (injection hstep with h2
         subst h2
         first
           | exact blkPersist_refl _
           | exact blkPersist_set ‹_› (ReferenceCounter.add_hasObj _)
           | exact blkPersist_set ‹_› (ReferenceCounter.addWeak_hasObj _)
           | exact blkPersist_concat _ _
           | exact blkPersist_sharedDeleter ‹_›
           | exact blkPersist_weakDeleter ‹_›
           | exact blkPersist_comp (blkPersist_sharedDeleter ‹_›)
               (blkPersist_set ‹_› (ReferenceCounter.add_hasObj _))
           | exact blkPersist_comp (blkPersist_sharedDeleter ‹_›)
               (blkPersist_concat _ _)
           | exact blkPersist_comp (blkPersist_weakDeleter ‹_›)
               (blkPersist_set ‹_› (ReferenceCounter.addWeak_hasObj _)))

theorem run_blkPersist {w w2 : World} {ops : List Op} (hrun : run w ops = some w2) :
    BlkPersist w.blks w2.blks := by
  induction ops generalizing w with
  | nil =>
    rw [run] at hrun
    injection hrun with h2
    subst h2
    exact blkPersist_refl _
  | cons o ops ih =>
    rw [run] at hrun
    match hst : step w o with
    | none => simp only [hst] at hrun; exact absurd hrun (by simp)
    | some w1 =>
      simp only [hst] at hrun
      exact blkPersist_comp (step_blkPersist hst) (ih hrun)

theorem winvS_empty : WInvS World.empty := by
  refine ⟨winv_empty, ?_⟩
  intro b B hB
  simp [World.empty] at hB

theorem winvS_reachS {w : World} (hR : ReachS w) : WInvS w := by
  rcases hR with ⟨ops, hsafe, hrun⟩
  exact winvS_run winvS_empty hsafe hrun

theorem winvS_objFrees {w : World} (hIS : WInvS w) {b : Nat} {B : ReferenceCounter}
    (hB : w.blks[b]? = some B) (hobj : B.hasObj = true) :
    B.objFrees = (if sharers w b = 0 then 1 else 0) ∧
      (B.objAlive = true ↔ 1 ≤ sharers w b) := by
  have hse : B.count = sharers w b := hIS.strongEq b B hB hobj
  have hsa := hIS.strongAlive b B hB hobj
  have hoc := hIS.objCnt b B hB hobj
  constructor
  · rw [hoc]
    by_cases hz : sharers w b = 0
    · rw [if_pos hz]
      have hna : ¬ B.objAlive = true := by rw [hsa]; omega
      rw [if_neg hna]
    · rw [if_neg hz]
      have hya : B.objAlive = true := hsa.mpr (by omega)
      rw [if_pos hya]
  · rw [hsa, hse]

/-! ## Helpers for the claim theorems -/

theorem sharedOp_safe {o : Op} (h : SharedOp o = true) : SafeOp o = true := by
  cases o <;> simp_all [SharedOp, SafeOp]

theorem run_concat {w w1 w2 : World} {ops : List Op} {o : Op}
    (hrun : run w ops = some w1) (hstep : step w1 o = some w2) :
    run w (ops ++ [o]) = some w2 := by
  induction ops generalizing w with
  | nil =>
    rw [run] at hrun
    injection hrun with h2
    subst h2
    rw [List.nil_append, run]
    simp only [hstep]
    rw [run]
  | cons o0 ops ih =>
    rw [run] at hrun
    match hst : step w o0 with
    | none => simp only [hst] at hrun; exact absurd hrun (by simp)
    | some wm =>
      simp only [hst] at hrun
      rw [List.cons_append, run, hst]
      exact ih hrun

theorem sharedDeleter_hold_true {w : World} (hIS : WInvS w) {d b : Nat}
    (hd : w.sh[d]? = some (SharedH.hold true b)) {B : ReferenceCounter}
    (hB : w.blks[b]? = some B) :
    sharedDeleter w.blks (SharedH.hold true b) =
      some (w.blks.set b (sharedDeleterEffect B)) := by
  obtain ⟨B2, hB2, hob2, hal2⟩ := hIS.shAgree d true b hd
  have heB : B = B2 := option_inj hB hB2
  have hobj : B.hasObj = true := by rw [heB]; exact hob2.symm
  have hal : B.blkAlive = true := by rw [heB]; exact hal2
  have hpos : 1 ≤ B.count := holder_count_pos hIS.toWInv hd hB
  have hoa : B.objAlive = true := (hIS.strongAlive b B hB hobj).mpr hpos
  by_cases hc : B.count - 1 = 0
  · by_cases hw : B.weak = 0
    · simp [sharedDeleter, hB, hal, hoa, ReferenceCounter.remove, sharedDeleterEffect, hc, hw]
    · simp [sharedDeleter, hB, hal, hoa, ReferenceCounter.remove, sharedDeleterEffect, hc, hw]
  · simp [sharedDeleter, hB, hal, hoa, ReferenceCounter.remove, sharedDeleterEffect, hc]

theorem sharedDeleter_live {w : World} (hIS : WInvS w) {d : Nat} {s : SharedH}
    (hd : w.sh[d]? = some s) (hnd : s ≠ SharedH.dead) :
    ∃ blks1, sharedDeleter w.blks s = some blks1 := by
  cases s with
  | dead => exact absurd rfl hnd
  | empty => exact ⟨w.blks, rfl⟩
  | hold o b =>
    cases o with
    | false => exact ⟨w.blks, by simp [sharedDeleter]⟩
    | true =>
      obtain ⟨B, hB, _, _⟩ := hIS.shAgree d true b hd
      exact ⟨w.blks.set b (sharedDeleterEffect B), sharedDeleter_hold_true hIS hd hB⟩

theorem c1_core {ops : List Op} {w : World} (hops : ∀ o ∈ ops, SharedOp o = true)
    (hrun : run init1 ops = some w) :
    ∃ B, w.blks[0]? = some B ∧ B.hasObj = true ∧
      B.objFrees = (if sharers w 0 = 0 then 1 else 0) ∧
      (B.objAlive = true ↔ 1 ≤ sharers w 0) := by
  have hIS : WInvS w := winvS_run winvS_init1 (fun o ho => sharedOp_safe (hops o ho)) hrun
  have hper := run_blkPersist hrun
  obtain ⟨B, hB, hob⟩ := hper 0 (freshBlock true) (by rfl)
  have hobj : B.hasObj = true := by rw [hob]; rfl
  obtain ⟨h1, h2⟩ := winvS_objFrees hIS hB hobj
  exact ⟨B, hB, hobj, h1, h2⟩

/-! ## Claim theorems -/

/-- Claim C2 (code bug): over one object with one Shared and one Observer
Handle, destroying the observer first (strong count still 1) and then the
shared handle leaves the block allocated forever: after all handles are dead
the object was freed once but the counter was never freed (`blkFrees = 0`,
`blkAlive` still true, stale weak count 1), although the claim demands the
block be freed exactly once, at the operation making both counts zero. -/
theorem C2_block_leak_run :
    run init1 [Op.wFromSharedCtor 0, Op.wDtor 0, Op.sDtor 0] =
      some ⟨[⟨0, 1, true, false, 1, true, 0⟩], [SharedH.dead], [WeakH.dead]⟩ := rfl

/-- Claim C3 (code bug): destroying an Observer Handle while the strong count
is positive does not decrement the weak count: `WeakPtr::deleter` reaches
`removeWeak` only behind the short-circuit `!reference->get()`, so after the
release the weak count is still 1 (the claim says every weak release
decrements it). -/
theorem C3_weak_release_skipped :
    run init1 [Op.wFromSharedCtor 0, Op.wDtor 0] =
      some ⟨[⟨1, 1, true, true, 0, true, 0⟩], [SharedH.hold true 0], [WeakH.dead]⟩ := rfl

/-- Claim C4 as stated is false: `UniquePtr::operator=(UniquePtr&&)` has no
self-assignment check, so self-move-assigning a non-empty Exclusive Handle
deletes the owned object (free count 1) and leaves the handle empty, rather
than leaving the state unchanged. -/
theorem C4_unique_self_move_counterexample :
    uMoveAssign (⟨[⟨true, 0⟩], [UniqueH.ptr (some 0)]⟩ : UWorld) 0 0 =
      some ⟨[⟨false, 1⟩], [UniqueH.ptr none]⟩ := rfl

/-- Claim C4 amended: self-assignment leaves the handle unchanged and does not
destroy the referenced object for Shared Handles and Observer Handles, whose
copy and move assignment operators have an explicit `this == &right` guard;
for an Exclusive Handle, self-move-assignment instead deletes the owned
object and leaves the handle empty. -/
theorem C4_amended_self_assign (w : World) (i : Nat) :
    (∀ s, w.sh[i]? = some s → s ≠ SharedH.dead →
      step w (Op.sCopyAssign i i) = some w ∧ step w (Op.sMoveAssign i i) = some w) ∧
    (∀ s, w.wk[i]? = some s → s ≠ WeakH.dead →
      step w (Op.wCopyAssign i i) = some w ∧ step w (Op.wMoveAssign i i) = some w) ∧
    (∀ (u : UWorld) (o : Nat) (ob : UObj), u.hs[i]? = some (UniqueH.ptr (some o)) →
      u.objs[o]? = some ob → ob.alive = true →
      uMoveAssign u i i =
        some ⟨u.objs.set o ⟨false, ob.frees + 1⟩, u.hs.set i (UniqueH.ptr none)⟩) := by
  refine ⟨?_, ?_, ?_⟩
  · intro s hs hnd
    cases s with
    | dead => exact absurd rfl hnd
    | empty => constructor <;> simp [step, hs]
    | hold o b => constructor <;> simp [step, hs]
  · intro s hs hnd
    cases s with
    | dead => exact absurd rfl hnd
    | empty => constructor <;> simp [step, hs]
    | hold p b => constructor <;> simp [step, hs]
  · intro u o ob hu hob halive
    simp [uMoveAssign, hu, deleteObj, hob, halive, List.set_set]

/-- Claim C4 amended, witness at concrete states. -/
theorem C4_amended_self_assign_witness :
    step init1 (Op.sCopyAssign 0 0) = some init1 ∧
    step init1 (Op.sMoveAssign 0 0) = some init1 ∧
    uMoveAssign (⟨[⟨true, 5⟩], [UniqueH.ptr (some 0)]⟩ : UWorld) 0 0 =
      some ⟨[⟨false, 6⟩], [UniqueH.ptr none]⟩ := by
  obtain ⟨h1, h2, h3⟩ := C4_amended_self_assign init1 0
  have hsh := h1 (SharedH.hold true 0) (by rfl) (by simp)
  refine ⟨hsh.1, hsh.2, ?_⟩
  exact h3 ⟨[⟨true, 5⟩], [UniqueH.ptr (some 0)]⟩ 0 ⟨true, 5⟩ (by rfl) (by rfl) (by rfl)

/-- Claim C8: move-constructing an Exclusive Handle from a non-empty source
leaves the source empty (get returns null) and the destination holding the
original pointer; destroying the now-empty source is defined, frees nothing,
and leaves the moved-to handle and the object untouched. -/
theorem C8_unique_move_ctor (w : UWorld) (src o : Nat)
    (hs : w.hs[src]? = some (UniqueH.ptr (some o))) :
    ∃ w2, uMoveCtor w src = some w2 ∧ w2.objs = w.objs ∧
      uGet w2 src = some none ∧ uGet w2 w.hs.length = some (some o) ∧
      ∃ w3, uDtor w2 src = some w3 ∧ w3.objs = w.objs ∧
        uGet w3 w.hs.length = some (some o) := by
  have hlen : src < w.hs.length := (List.getElem?_eq_some_iff.1 hs).1
  have h1 : ((w.hs.set src (UniqueH.ptr none)) ++ [UniqueH.ptr (some o)])[src]? =
      some (UniqueH.ptr none) :=
    getElem?_concat_of_mem (getElem?_set_same hs _)
  have hlenset : (w.hs.set src (UniqueH.ptr none)).length = w.hs.length := by simp
  have h2 : ((w.hs.set src (UniqueH.ptr none)) ++ [UniqueH.ptr (some o)])[w.hs.length]? =
      some (UniqueH.ptr (some o)) := by
    rw [← hlenset]
    exact List.getElem?_concat_length _ _
  refine ⟨⟨w.objs, (w.hs.set src (UniqueH.ptr none)) ++ [UniqueH.ptr (some o)]⟩,
    by simp [uMoveCtor, hs], rfl, by simp [uGet, h1], by simp [uGet, h2], ?_⟩
  have h3 : (((w.hs.set src (UniqueH.ptr none)) ++
      [UniqueH.ptr (some o)]).set src UniqueH.dead)[w.hs.length]? =
      some (UniqueH.ptr (some o)) :=
    getElem?_set_other (by omega) _ h2
  exact ⟨⟨w.objs, ((w.hs.set src (UniqueH.ptr none)) ++
      [UniqueH.ptr (some o)]).set src UniqueH.dead⟩,
    by simp [uDtor, h1, deleteObj], rfl, by simp [uGet, h3]⟩

/-- Claim C8, witness at a concrete state. -/
theorem C8_unique_move_ctor_witness :
    ∃ w2, uMoveCtor (⟨[⟨true, 0⟩], [UniqueH.ptr (some 0)]⟩ : UWorld) 0 = some w2 ∧
      w2.objs = [⟨true, 0⟩] ∧ uGet w2 0 = some none ∧ uGet w2 1 = some (some 0) ∧
      ∃ w3, uDtor w2 0 = some w3 ∧ w3.objs = [⟨true, 0⟩] ∧ uGet w3 1 = some (some 0) :=
  C8_unique_move_ctor ⟨[⟨true, 0⟩], [UniqueH.ptr (some 0)]⟩ 0 0 (by rfl)

/-- Claim C9: constructing an Observer Handle from an empty Observer Handle or
an empty Shared Handle, or assigning an empty Shared Handle to an Observer
Handle, runs `reference->addWeak()` on a null block pointer: in the embedding
these operations are undefined (`none`) whenever the source is empty, for
every destination, while the Shared Handle copy constructor guards the empty
case and succeeds; with a non-empty live source the weak constructor is
defined and increments the weak count. -/
theorem C9_weak_ctor_null_deref (w : World) (i j : Nat) :
    (w.sh[i]? = some SharedH.empty →
      step w (Op.wFromSharedCtor i) = none ∧
      (∀ d, step w (Op.wFromSharedAssign d i) = none)) ∧
    (w.wk[j]? = some WeakH.empty → step w (Op.wCopyCtor j) = none) ∧
    (w.sh[i]? = some SharedH.empty →
      step w (Op.sCopyCtor i) = some ⟨w.blks, w.sh ++ [SharedH.empty], w.wk⟩) ∧
    (∀ (k : Nat) (o : Bool) (b : Nat) (B : ReferenceCounter),
      w.sh[k]? = some (SharedH.hold o b) → w.blks[b]? = some B → B.blkAlive = true →
      step w (Op.wFromSharedCtor k) =
        some ⟨w.blks.set b B.addWeak, w.sh, w.wk ++ [WeakH.hold o b]⟩) := by
  refine ⟨?_, ?_, ?_, ?_⟩
  · intro hs
    refine ⟨by simp [step, hs], ?_⟩
    intro d
    match hd : w.wk[d]? with
    | none => simp [step, hd]
    | some WeakH.dead => simp [step, hd]
    | some WeakH.empty => simp [step, hd, hs, weakDeleter]
    | some (WeakH.hold p b) =>
      cases hdel : weakDeleter w.blks (WeakH.hold p b) <;> simp [step, hd, hs, hdel]
  · intro hw
    simp [step, hw]
  · intro hs
    simp [step, hs]
  · intro k o b B hs hB hal
    simp only [step, hs, hB]
    rw [if_neg (by simp [hal])]

/-- Claim C9, witness: over one live block, the three empty-source weak
operations are undefined, the shared copy constructor from the same empty
handle succeeds, and the weak constructor from the live handle bumps the weak
count. -/
theorem C9_weak_ctor_null_deref_witness :
    step ⟨[freshBlock true], [SharedH.empty, SharedH.hold true 0], [WeakH.empty]⟩
      (Op.wFromSharedCtor 0) = none ∧
    step ⟨[freshBlock true], [SharedH.empty, SharedH.hold true 0], [WeakH.empty]⟩
      (Op.wFromSharedAssign 0 0) = none ∧
    step ⟨[freshBlock true], [SharedH.empty, SharedH.hold true 0], [WeakH.empty]⟩
      (Op.wCopyCtor 0) = none ∧
    step ⟨[freshBlock true], [SharedH.empty, SharedH.hold true 0], [WeakH.empty]⟩
      (Op.sCopyCtor 0) =
      some ⟨[freshBlock true], [SharedH.empty, SharedH.hold true 0, SharedH.empty],
        [WeakH.empty]⟩ ∧
    step ⟨[freshBlock true], [SharedH.empty, SharedH.hold true 0], [WeakH.empty]⟩
      (Op.wFromSharedCtor 1) =
      some ⟨[⟨1, 1, true, true, 0, true, 0⟩], [SharedH.empty, SharedH.hold true 0],
        [WeakH.empty, WeakH.hold true 0]⟩ := by
  obtain ⟨h1, h2, h3, h4⟩ :=
    C9_weak_ctor_null_deref ⟨[freshBlock true], [SharedH.empty, SharedH.hold true 0],
      [WeakH.empty]⟩ 0 0
  exact ⟨(h1 rfl).1, (h1 rfl).2 0, h2 rfl, h3 rfl, h4 1 true 0 (freshBlock true) rfl rfl rfl⟩

/-- Claim C10: constructing a Shared Handle from a null raw pointer allocates
a block with strong count 1, so the new handle reports `use_count() = 1` and
`get()` null; destroying or resetting a null-object handle leaves every block
untouched (the release rule is gated on `object` being non-null), and in every
reachable state a null-object block keeps a positive strong count, stays
allocated, and was never freed. -/
theorem C10_null_handle_never_releases (w : World) (hR : Reach w) :
    (step w (Op.sNewRaw false) =
        some ⟨w.blks ++ [freshBlock false],
          w.sh ++ [SharedH.hold false w.blks.length], w.wk⟩ ∧
      useCountS ⟨w.blks ++ [freshBlock false],
          w.sh ++ [SharedH.hold false w.blks.length], w.wk⟩ w.sh.length = some 1 ∧
      getS ⟨w.blks ++ [freshBlock false],
          w.sh ++ [SharedH.hold false w.blks.length], w.wk⟩ w.sh.length = some false) ∧
    (∀ (h b : Nat), w.sh[h]? = some (SharedH.hold false b) →
      step w (Op.sDtor h) = some ⟨w.blks, w.sh.set h SharedH.dead, w.wk⟩ ∧
      step w (Op.sReset h) = some ⟨w.blks, w.sh.set h SharedH.empty, w.wk⟩) ∧
    (∀ (b : Nat) (B : ReferenceCounter), w.blks[b]? = some B → B.hasObj = false →
      1 ≤ B.count ∧ B.blkAlive = true ∧ B.blkFrees = 0) := by
  have hI : WInv w := winv_reach hR
  refine ⟨⟨by simp [step], ?_, ?_⟩, ?_, ?_⟩
  · have h1 : (w.sh ++ [SharedH.hold false w.blks.length])[w.sh.length]? =
        some (SharedH.hold false w.blks.length) := List.getElem?_concat_length _ _
    have h2 : (w.blks ++ [freshBlock false])[w.blks.length]? = some (freshBlock false) :=
      List.getElem?_concat_length _ _
    simp [useCountS, h1, h2, freshBlock]
  · have h1 : (w.sh ++ [SharedH.hold false w.blks.length])[w.sh.length]? =
        some (SharedH.hold false w.blks.length) := List.getElem?_concat_length _ _
    simp [getS, h1]
  · intro h b hs
    constructor <;> simp [step, hs, sharedDeleter]
  · intro b B hB hobj
    obtain ⟨hc, hal, hfr, _, _⟩ := hI.noObjInv b B hB hobj
    exact ⟨hc, hal, hfr⟩

/-- Claim C10, witness: the state with one null-object handle, reached by
`SharedPtr p{nullptr}`. -/
theorem C10_null_handle_never_releases_witness :
    step ⟨[freshBlock false], [SharedH.hold false 0], []⟩ (Op.sNewRaw false) =
      some ⟨[freshBlock false, freshBlock false],
        [SharedH.hold false 0, SharedH.hold false 1], []⟩ ∧
    useCountS ⟨[freshBlock false, freshBlock false],
      [SharedH.hold false 0, SharedH.hold false 1], []⟩ 1 = some 1 ∧
    getS ⟨[freshBlock false, freshBlock false],
      [SharedH.hold false 0, SharedH.hold false 1], []⟩ 1 = some false ∧
    step ⟨[freshBlock false], [SharedH.hold false 0], []⟩ (Op.sDtor 0) =
      some ⟨[freshBlock false], [SharedH.dead], []⟩ ∧
    step ⟨[freshBlock false], [SharedH.hold false 0], []⟩ (Op.sReset 0) =
      some ⟨[freshBlock false], [SharedH.empty], []⟩ ∧
    1 ≤ (freshBlock false).count ∧ (freshBlock false).blkAlive = true ∧
      (freshBlock false).blkFrees = 0 := by
  obtain ⟨⟨h1, h2, h3⟩, h4, h5⟩ :=
    C10_null_handle_never_releases ⟨[freshBlock false], [SharedH.hold false 0], []⟩
      ⟨[Op.sNewRaw false], rfl⟩
  obtain ⟨h41, h42⟩ := h4 0 0 rfl
  obtain ⟨h51, h52, h53⟩ := h5 0 (freshBlock false) rfl rfl
  exact ⟨h1, h2, h3, h41, h42, h51, h52, h53⟩

/-- Claim C5: in every reachable state, `lock()` on an Observer Handle is
defined, returns an empty Shared Handle when the observer is empty or its
strong count is zero (expired), and otherwise returns a new Shared Handle on
the same block whose `use_count()` is the pre-lock strong count plus one. -/
theorem C5_lock_spec (w : World) (hR : Reach w) (i : Nat) :
    (w.wk[i]? = some WeakH.empty →
      step w (Op.wLock i) = some ⟨w.blks, w.sh ++ [SharedH.empty], w.wk⟩ ∧
      expiredW w i = some true) ∧
    (∀ (p : Bool) (b : Nat) (B : ReferenceCounter),
      w.wk[i]? = some (WeakH.hold p b) → w.blks[b]? = some B →
      (B.count = 0 →
        step w (Op.wLock i) = some ⟨w.blks, w.sh ++ [SharedH.empty], w.wk⟩) ∧
      (B.count ≠ 0 →
        step w (Op.wLock i) =
          some ⟨w.blks.set b B.add, w.sh ++ [SharedH.hold p b], w.wk⟩ ∧
        useCountS ⟨w.blks.set b B.add, w.sh ++ [SharedH.hold p b], w.wk⟩
          w.sh.length = some (B.count + 1) ∧
        useCountW w i = some B.count)) := by
  have hI : WInv w := winv_reach hR
  constructor
  · intro hw
    exact ⟨by simp [step, hw], by simp [expiredW, useCountW, hw]⟩
  · intro p b B hw hB
    obtain ⟨B2, hB2, _, hal2⟩ := hI.wkAgree i p b hw
    have heB : B = B2 := option_inj hB hB2
    have hal : B.blkAlive = true := by rw [heB]; exact hal2
    constructor
    · intro hc
      simp only [step, hw, hB]
      rw [if_neg (by simp [hal]), if_pos hc]
    · intro hc
      refine ⟨?_, ?_, ?_⟩
      · simp only [step, hw, hB]
        rw [if_neg (by simp [hal]), if_neg hc]
      · have h1 : (w.sh ++ [SharedH.hold p b])[w.sh.length]? =
            some (SharedH.hold p b) := List.getElem?_concat_length _ _
        have h2 : (w.blks.set b B.add)[b]? = some B.add := getElem?_set_same hB _
        simp [useCountS, h1, h2, hal]
      · simp [useCountW, hw, hB, hal]

/-- Claim C5, witness: locking a live observer over a block with strong count
1 yields a shared handle with use count 2; the pre-lock count is 1. -/
theorem C5_lock_spec_witness :
    step ⟨[⟨1, 1, true, true, 0, true, 0⟩], [SharedH.hold true 0], [WeakH.hold true 0]⟩
      (Op.wLock 0) =
      some ⟨[⟨2, 1, true, true, 0, true, 0⟩],
        [SharedH.hold true 0, SharedH.hold true 0], [WeakH.hold true 0]⟩ ∧
    useCountS ⟨[⟨2, 1, true, true, 0, true, 0⟩],
      [SharedH.hold true 0, SharedH.hold true 0], [WeakH.hold true 0]⟩ 1 = some 2 ∧
    useCountW ⟨[⟨1, 1, true, true, 0, true, 0⟩], [SharedH.hold true 0],
      [WeakH.hold true 0]⟩ 0 = some 1 := by
  have h := ((C5_lock_spec
    ⟨[⟨1, 1, true, true, 0, true, 0⟩], [SharedH.hold true 0], [WeakH.hold true 0]⟩
    ⟨[Op.sNewRaw true, Op.wFromSharedCtor 0], rfl⟩ 0).2 true 0
    ⟨1, 1, true, true, 0, true, 0⟩ rfl rfl).2 (by decide)
  exact ⟨h.1, h.2.1, h.2.2⟩

/-- Claim C6 as stated is false: for a Shared Handle created from a null raw
pointer, releases never decrement the strong count, so after creating such a
handle, copying it, and destroying the copy, the remaining handle reports
`use_count() = 2` while only one live Shared Handle shares its block. -/
theorem C6_use_count_counterexample :
    (run World.empty [Op.sNewRaw false, Op.sCopyCtor 0, Op.sDtor 1]).bind
        (fun w => useCountS w 0) = some 2 ∧
      (run World.empty [Op.sNewRaw false, Op.sCopyCtor 0, Op.sDtor 1]).map
        (fun w => sharers w 0) = some 1 := ⟨rfl, rfl⟩

/-- Claim C6 amended: in every reachable state, `use_count()` on a Shared
Handle whose stored pointer is non-null equals the number of live Shared
Handles sharing its block, and an empty Shared Handle reports 0 (for handles
holding a null pointer the count can exceed the number of live sharers,
because their releases never decrement it). -/
theorem C6_amended_use_count (w : World) (hR : Reach w) (i : Nat) :
    (∀ b, w.sh[i]? = some (SharedH.hold true b) → useCountS w i = some (sharers w b)) ∧
    (w.sh[i]? = some SharedH.empty → useCountS w i = some 0) := by
  have hI : WInv w := winv_reach hR
  constructor
  · intro b hs
    obtain ⟨B, hB, hob, hal⟩ := hI.shAgree i true b hs
    have hse : B.count = sharers w b := hI.strongEq b B hB hob.symm
    simp [useCountS, hs, hB, hal, hse]
  · intro hs
    simp [useCountS, hs]

/-- Claim C6 amended, witness: after `SharedPtr a{new T}; SharedPtr b{a};`
each handle reports use count 2, matching the two live sharers. -/
theorem C6_amended_use_count_witness :
    useCountS ⟨[⟨2, 0, true, true, 0, true, 0⟩],
      [SharedH.hold true 0, SharedH.hold true 0], []⟩ 0 = some 2 := by
  have h := (C6_amended_use_count
    ⟨[⟨2, 0, true, true, 0, true, 0⟩], [SharedH.hold true 0, SharedH.hold true 0], []⟩
    ⟨[Op.sNewRaw true, Op.sCopyCtor 0], rfl⟩ 0).1 0 rfl
  rw [h]
  rfl

/-- Claim C7 as stated is false: copy assignment from an EMPTY Shared Handle
source runs `reference->add()` on a null block pointer, so after moving a
handle out (leaving it empty) and copy-assigning from the moved-from handle,
the run is undefined rather than adopting the empty state. -/
theorem C7_copy_assign_counterexample :
    run init1 [Op.sMoveCtor 0, Op.sCopyAssign 1 0] = none := rfl

/-- Claim C7 amended: for a live destination and a NON-empty live source
(distinct from the destination), copy assignment first releases the current
ownership of the destination through `SharedPtr::deleter`, then adopts the
block of the source and increments its strong count; the source handle is
unchanged and the destination then reports the incremented count.  The state
is restricted to the guarded API (`ReachS`), under which the release of the
destination is always defined. -/
theorem C7_amended_copy_assign (w : World) (hR : ReachS w) (dst src : Nat)
    (hne : dst ≠ src) (d : SharedH) (hd : w.sh[dst]? = some d)
    (hdnd : d ≠ SharedH.dead) (o : Bool) (b : Nat)
    (hs : w.sh[src]? = some (SharedH.hold o b)) :
    ∃ blks1 B, sharedDeleter w.blks d = some blks1 ∧ blks1[b]? = some B ∧
      step w (Op.sCopyAssign dst src) =
        some ⟨blks1.set b B.add, w.sh.set dst (SharedH.hold o b), w.wk⟩ ∧
      (w.sh.set dst (SharedH.hold o b))[src]? = some (SharedH.hold o b) ∧
      useCountS ⟨blks1.set b B.add, w.sh.set dst (SharedH.hold o b), w.wk⟩ dst =
        some (B.count + 1) := by
  have hIS : WInvS w := winvS_reachS hR
  obtain ⟨blks1, hdel⟩ := sharedDeleter_live hIS hd hdnd
  have hmid : WInv ⟨blks1, w.sh.set dst SharedH.empty, w.wk⟩ :=
    winv_releaseS hIS.toWInv hd hdel (fun o2 b2 => by simp)
  have hsrc1 : (w.sh.set dst SharedH.empty)[src]? = some (SharedH.hold o b) :=
    getElem?_set_other (Ne.symm hne) _ hs
  obtain ⟨B, hB1, hobB, halB⟩ := hmid.shAgree src o b hsrc1
  refine ⟨blks1, B, hdel, hB1, ?_, getElem?_set_other (Ne.symm hne) _ hs, ?_⟩
  · cases d with
    | dead => exact absurd rfl hdnd
    | empty =>
      simp only [step, hd, hs]
      rw [if_neg hne]
      simp only [hdel, hB1]
      rw [if_neg (by simp [halB])]
    | hold o2 b2 =>
      simp only [step, hd, hs]
      rw [if_neg hne]
      simp only [hdel, hB1]
      rw [if_neg (by simp [halB])]
  · have hdst2 : (w.sh.set dst (SharedH.hold o b))[dst]? = some (SharedH.hold o b) :=
      getElem?_set_same hd _
    have hBb : (blks1.set b B.add)[b]? = some B.add := getElem?_set_same hB1 _
    simp [useCountS, hdst2, hBb, halB]

/-- Claim C7 amended, witness: with two independent live handles, assigning
the second into the first releases the first block (freeing its object and
counter) and bumps the second block to strong count 2. -/
theorem C7_amended_copy_assign_witness :
    ∃ blks1 B,
      sharedDeleter (⟨[freshBlock true, freshBlock true],
        [SharedH.hold true 0, SharedH.hold true 1], []⟩ : World).blks
          (SharedH.hold true 0) = some blks1 ∧
      blks1[1]? = some B ∧
      step ⟨[freshBlock true, freshBlock true],
        [SharedH.hold true 0, SharedH.hold true 1], []⟩ (Op.sCopyAssign 0 1) =
        some ⟨blks1.set 1 B.add,
          [SharedH.hold true 1, SharedH.hold true 1], []⟩ ∧
      ([SharedH.hold true 1, SharedH.hold true 1] :
        List SharedH)[1]? = some (SharedH.hold true 1) ∧
      useCountS ⟨blks1.set 1 B.add,
        [SharedH.hold true 1, SharedH.hold true 1], []⟩ 0 = some (B.count + 1) :=
  C7_amended_copy_assign
    ⟨[freshBlock true, freshBlock true], [SharedH.hold true 0, SharedH.hold true 1], []⟩
    ⟨[Op.sNewRaw true, Op.sNewRaw true], by decide, rfl⟩ 0 1 (by decide)
    (SharedH.hold true 0) rfl (by simp) true 1 rfl

/-- Claim C1: over any sequence of copy, move, reset, and swap operations on
Shared Handles starting from `SharedPtr a{new T}`, the object of the original
block is freed exactly once, and exactly at the operation that removes the
last live Shared Handle on that block: at every intermediate state the free
count is 1 exactly when no sharer is left (and the object is alive exactly
while one is), and one more step increments the free count exactly when it
destroys the last sharer. -/
theorem C1_object_freed_at_last_release (ops : List Op) (w : World)
    (hops : ∀ o ∈ ops, SharedOp o = true) (hrun : run init1 ops = some w) :
    (∃ B, w.blks[0]? = some B ∧ B.hasObj = true ∧
      B.objFrees = (if sharers w 0 = 0 then 1 else 0) ∧
      (B.objAlive = true ↔ 1 ≤ sharers w 0)) ∧
    (∀ (o : Op) (w2 : World) (B B2 : ReferenceCounter), SharedOp o = true →
      step w o = some w2 → w.blks[0]? = some B → w2.blks[0]? = some B2 →
      (B2.objFrees = B.objFrees + 1 ↔ 1 ≤ sharers w 0 ∧ sharers w2 0 = 0)) := by
  refine ⟨c1_core hops hrun, ?_⟩
  intro o w2 B B2 hso hstep hB hB2
  have hops2 : ∀ o2 ∈ ops ++ [o], SharedOp o2 = true := by
    intro o2 ho2
    rcases List.mem_append.1 ho2 with h | h
    · exact hops o2 h
    · rw [List.mem_singleton] at h
      rw [h]
      exact hso
  obtain ⟨B2a, hB2a, _, hf2, _⟩ := c1_core hops2 (run_concat hrun hstep)
  obtain ⟨Ba, hBa, _, hf1, _⟩ := c1_core hops hrun
  have he1 : B = Ba := option_inj hB hBa
  have he2 : B2 = B2a := option_inj hB2 hB2a
  rw [he1, he2, hf1, hf2]
  by_cases h1 : sharers w 0 = 0 <;> by_cases h2 : sharers w2 0 = 0 <;>
    simp [h1, h2] <;> omega

/-- Claim C1, witness: from `SharedPtr a{new T}` after one copy and the
destruction of the original, the object of block 0 is still alive with one
sharer left; destroying the last handle increments the free count from 0 to 1
exactly because the sharer count drops from 1 to 0. -/
theorem C1_object_freed_at_last_release_witness :
    (∃ B, (⟨[⟨1, 0, true, true, 0, true, 0⟩],
        [SharedH.dead, SharedH.hold true 0], []⟩ : World).blks[0]? = some B ∧
      B.hasObj = true ∧
      B.objFrees = (if sharers ⟨[⟨1, 0, true, true, 0, true, 0⟩],
        [SharedH.dead, SharedH.hold true 0], []⟩ 0 = 0 then 1 else 0) ∧
      (B.objAlive = true ↔ 1 ≤ sharers ⟨[⟨1, 0, true, true, 0, true, 0⟩],
        [SharedH.dead, SharedH.hold true 0], []⟩ 0)) ∧
    ((⟨0, 0, true, false, 1, false, 1⟩ : ReferenceCounter).objFrees =
        (⟨1, 0, true, true, 0, true, 0⟩ : ReferenceCounter).objFrees + 1 ↔
      1 ≤ sharers ⟨[⟨1, 0, true, true, 0, true, 0⟩],
          [SharedH.dead, SharedH.hold true 0], []⟩ 0 ∧
        sharers ⟨[⟨0, 0, true, false, 1, false, 1⟩],
          [SharedH.dead, SharedH.dead], []⟩ 0 = 0) := by
  obtain ⟨h1, h2⟩ := C1_object_freed_at_last_release [Op.sCopyCtor 0, Op.sDtor 0]
    ⟨[⟨1, 0, true, true, 0, true, 0⟩], [SharedH.dead, SharedH.hold true 0], []⟩
    (by decide) rfl
  exact ⟨h1, h2 (Op.sDtor 1)
    ⟨[⟨0, 0, true, false, 1, false, 1⟩], [SharedH.dead, SharedH.dead], []⟩
    ⟨1, 0, true, true, 0, true, 0⟩ ⟨0, 0, true, false, 1, false, 1⟩ rfl rfl rfl rfl⟩
